import Mathlib

/-!
Verification of the mongodump-parser repository: a shallow embedding of the
archive walker (`main.go`) and of the legacy extended-JSON special-key decoder
(`vendor/github.com/mongodb/mongo-tools/common/bsonutil/bsonutil.go`), with
theorems settling the specification claims.

Conventions:
* Go byte strings / slices are `List Nat` (each entry < 256 where relevant).
* Go `error` values are `Option GoErr` (`none` = nil); fallible pure helpers
  return `Except GoErr _`.
* Go `interface{}` values flowing through the decoder are the inductive `Value`
  below; `bson.D` is `List (String × Value)` (ordered, duplicate keys allowed)
  and `map[string]interface{}` is also a `List (String × Value)` but with the
  Go-map reading (distinct keys, access only by lookup and length).
-/

abbrev GoErr := String

/-- Go `interface{}` values reachable in the decoder (`bsonutil.go`).
`vFloat64` is restricted to float64 values that are exact integers, which is
the only fragment the claims exercise; `int64(v)` on such a value is the
identity. `vTime` holds a `time.Time` as (seconds, nanoseconds) as produced by
`time.Unix` (see `timeUnix`). -/
inductive Value where
  | vNull : Value
  | vBool : Bool → Value
  | vStr : String → Value
  | vD : List (String × Value) → Value
  | vMap : List (String × Value) → Value
  | vArr : List Value → Value
  | vJsonNumber : String → Value
  | vFloat64 : Int → Value
  | vInt32 : Int → Value
  | vInt64 : Int → Value
  | vISODate : String → Value
  | vTime : Int → Int → Value
  | vJavaScript : String → Value
  | vObjectID : List Nat → Value
  | vTimestamp : Nat → Nat → Value
  | vDecimal128 : String → Value
  | vUndefined : Value
  | vMaxKey : Value
  | vMinKey : Value
  | vCodeWithScope : String → Value → Value
  | vRegex : String → String → Value
  | vBinary : Nat → List Nat → Value
deriving Repr

/-- Association-list lookup, the reading of `doc[key]` on a Go map
(keys of a Go map are distinct, so first match is the match). -/
def lookupKV : List (String × Value) → String → Option Value
  | [], _ => none
  | (k, v) :: rest, key => if k = key then some v else lookupKV rest key

/-- One step of `bson.D.Map()`: put pair `p`, overwriting the value of an
existing equal key and otherwise appending (mirrors `m[e.Key] = e.Value`). -/
def insertKV : List (String × Value) → String × Value → List (String × Value)
  | [], p => [p]
  | (k, v) :: rest, p => if k = p.1 then (p.1, p.2) :: rest else (k, v) :: insertKV rest p

/-- `bson.D.Map()` of the mongo driver: iterate the element list in order,
assigning each element into a map, so the last occurrence of a key wins and
the result has one entry per distinct key. -/
def dMap (d : List (String × Value)) : List (String × Value) :=
  d.foldl insertKV []

/-- Go `lower(c) = c | ('x' - 'X')` from `strconv/atoi.go`. -/
def lowerChar (c : Char) : Nat :=
  c.toNat ||| 0x20

/-- Digit value of a character as in Go's `ParseUint` loop:
`'0'..'9'`, then `'a' ≤ lower(c) ≤ 'z'` as 10..35, else invalid. -/
def digitVal (c : Char) : Option Nat :=
  if '0' ≤ c ∧ c ≤ '9' then some (c.toNat - '0'.toNat)
  else if 'a'.toNat ≤ lowerChar c ∧ lowerChar c ≤ 'z'.toNat then
    some (lowerChar c - 'a'.toNat + 10)
  else none

def strconvSyntaxErr : GoErr := "strconv: invalid syntax"
def strconvRangeErr : GoErr := "strconv: value out of range"

/-- Inner scan of `underscoreOK` (strconv/atoi.go): `saw` tracks the class of
the previous character: `^` start, `0` digit or base marker, `_` underscore,
`!` other. -/
def underscoreScan (hex : Bool) : List Char → Char → Bool
  | [], saw => saw ≠ '_'
  | c :: rest, saw =>
    if ('0' ≤ c ∧ c ≤ '9') ∨ (hex ∧ 'a' ≤ c ∧ c ≤ 'f') ∨ (hex ∧ 'A' ≤ c ∧ c ≤ 'F') then
      underscoreScan hex rest '0'
    else if c = '_' then
      if saw ≠ '0' then false else underscoreScan hex rest '_'
    else if saw = '_' then false
    else underscoreScan hex rest '!'

/-- Go `strconv.underscoreOK`: underscores may appear only between digits, or
between a base marker and a digit. -/
def underscoreOK (s : List Char) : Bool :=
  let s1 := match s with
    | c :: rest => if c = '-' ∨ c = '+' then rest else s
    | [] => s
  match s1 with
  | c0 :: c1 :: rest =>
    if c0 = '0' ∧ (lowerChar c1 = 'b'.toNat ∨ lowerChar c1 = 'o'.toNat ∨ lowerChar c1 = 'x'.toNat) then
      underscoreScan (lowerChar c1 = 'x'.toNat) rest '0'
    else underscoreScan false s1 '^'
  | _ => underscoreScan false s1 '^'

/-- Digit-accumulation loop of Go `strconv.ParseUint`: left to right, skipping
underscores when the base was auto-detected, rejecting non-digits and digits
not below the base, and reporting a range error as soon as the accumulated
value would exceed `maxVal`. -/
def goDigitLoop (base : Nat) (base0 : Bool) (maxVal : Nat) : List Char → Nat → Except GoErr Nat
  | [], n => .ok n
  | c :: rest, n =>
    if base0 ∧ c = '_' then goDigitLoop base base0 maxVal rest n
    else
      match digitVal c with
      | none => .error strconvSyntaxErr
      | some d =>
        if base ≤ d then .error strconvSyntaxErr
        else if (2 ^ 64 - 1) / base + 1 ≤ n then .error strconvRangeErr
        else if maxVal < n * base + d then .error strconvRangeErr
        else goDigitLoop base base0 maxVal rest (n * base + d)

/-- The base auto-detection of Go `strconv.ParseUint` for `base = 0`:
`0b`/`0B` binary, `0o`/`0O` octal, `0x`/`0X` hexadecimal, a remaining leading
`0` octal, else decimal; returns the base and the digit characters. -/
def detectBase (s : List Char) : Nat × List Char :=
  match s with
  | '0' :: c :: rest =>
    if rest ≠ [] ∧ lowerChar c = 'b'.toNat then (2, rest)
    else if rest ≠ [] ∧ lowerChar c = 'o'.toNat then (8, rest)
    else if rest ≠ [] ∧ lowerChar c = 'x'.toNat then (16, rest)
    else (8, c :: rest)
  | _ => (10, s)

/-- Go `strconv.ParseUint(s, base, bitSize)` for the call shapes the
repository uses (`base` 0 or 10, `bitSize` 32 or 64). -/
def goParseUint (s : List Char) (base : Nat) (bitSize : Nat) : Except GoErr Nat :=
  if s.isEmpty then .error strconvSyntaxErr
  else
    let base0 := base = 0
    let bd : Nat × List Char := if base ≠ 0 then (base, s) else detectBase s
    match goDigitLoop bd.1 base0 (2 ^ bitSize - 1) bd.2 0 with
    | .error e => .error e
    | .ok n => if base0 ∧ ¬ underscoreOK s then .error strconvSyntaxErr else .ok n

/-- Go `strconv.ParseInt(s, base, bitSize)`.  On a ParseUint range error Go
continues with the clamped maximum, which then necessarily trips the signed
range check below, so propagating the range error directly is behaviourally
identical. -/
def goParseInt (s : List Char) (base : Nat) (bitSize : Nat) : Except GoErr Int :=
  match s with
  | [] => .error strconvSyntaxErr
  | c :: rest =>
    let neg := c = '-'
    let s' := if c = '+' ∨ c = '-' then rest else s
    match goParseUint s' base bitSize with
    | .error e => .error e
    | .ok un =>
      if ¬ neg ∧ 2 ^ (bitSize - 1) ≤ un then .error strconvRangeErr
      else if neg ∧ 2 ^ (bitSize - 1) < un then .error strconvRangeErr
      else .ok (if neg then -(un : Int) else (un : Int))

/-- `strconv.ParseInt(v, 0, bitSize)` on a Go string. -/
def goParseIntStr (s : String) (bitSize : Nat) : Except GoErr Int :=
  goParseInt s.data 0 bitSize

/-- Hexadecimal digit value as in Go `encoding/hex`. -/
def hexDigitVal (c : Char) : Option Nat :=
  if '0' ≤ c ∧ c ≤ '9' then some (c.toNat - '0'.toNat)
  else if 'a' ≤ c ∧ c ≤ 'f' then some (c.toNat - 'a'.toNat + 10)
  else if 'A' ≤ c ∧ c ≤ 'F' then some (c.toNat - 'A'.toNat + 10)
  else none

/-- Go `hex.DecodeString`: consume hex-digit pairs into bytes; a non-hex
character or an odd length is an error. -/
def goHexDecode : List Char → Except GoErr (List Nat)
  | [] => .ok []
  | [_] => .error "encoding/hex: odd length hex string"
  | c1 :: c2 :: rest =>
    match hexDigitVal c1, hexDigitVal c2 with
    | some h, some l => (goHexDecode rest).map (fun bs => (h * 16 + l) :: bs)
    | _, _ => .error "encoding/hex: invalid byte"

/-- Base64 value of a character in the standard alphabet. -/
def b64DigitVal (c : Char) : Option Nat :=
  if 'A' ≤ c ∧ c ≤ 'Z' then some (c.toNat - 'A'.toNat)
  else if 'a' ≤ c ∧ c ≤ 'z' then some (c.toNat - 'a'.toNat + 26)
  else if '0' ≤ c ∧ c ≤ '9' then some (c.toNat - '0'.toNat + 52)
  else if c = '+' then some 62
  else if c = '/' then some 63
  else none

def b64CorruptErr : GoErr := "illegal base64 data"

/-- Quantum loop of Go `base64.StdEncoding.Decode`: four characters decode to
three bytes; the final quantum may end in `=` (two bytes) or `==` (one byte);
anything else is corrupt input. -/
def b64Quantums : List Char → Except GoErr (List Nat)
  | [] => .ok []
  | c1 :: c2 :: c3 :: c4 :: rest =>
    match b64DigitVal c1, b64DigitVal c2 with
    | some d1, some d2 =>
      if c3 = '=' then
        if c4 = '=' ∧ rest = [] then .ok [d1 * 4 + d2 / 16]
        else .error b64CorruptErr
      else
        match b64DigitVal c3 with
        | some d3 =>
          if c4 = '=' then
            if rest = [] then .ok [d1 * 4 + d2 / 16, d2 % 16 * 16 + d3 / 4]
            else .error b64CorruptErr
          else
            match b64DigitVal c4 with
            | some d4 =>
              (b64Quantums rest).map
                (fun bs => (d1 * 4 + d2 / 16) :: (d2 % 16 * 16 + d3 / 4) :: (d3 % 4 * 64 + d4) :: bs)
            | none => .error b64CorruptErr
        | none => .error b64CorruptErr
    | _, _ => .error b64CorruptErr
  | _ => .error b64CorruptErr

/-- Go `base64.StdEncoding.DecodeString`: newline characters are skipped, the
rest must be well-formed padded quantums. -/
def goBase64Decode (s : String) : Except GoErr (List Nat) :=
  b64Quantums (s.data.filter (fun c => c ≠ '\n' ∧ c ≠ '\r'))

/-- A `time.Time` produced by Go `time.Unix(sec, nsec)`: out-of-range
nanoseconds are normalized onto the seconds (truncating division, then a
negative remainder borrows one second), exactly as in `time.Unix`. -/
def timeUnix (sec nsec : Int) : Value :=
  if nsec < 0 ∨ 1000000000 ≤ nsec then
    let n := Int.tdiv nsec 1000000000
    let sec2 := sec + n
    let nsec2 := nsec - n * 1000000000
    if nsec2 < 0 then .vTime (sec2 - 1) (nsec2 + 1000000000) else .vTime sec2 nsec2
  else .vTime sec nsec

/-- `bsonutil.parseNumberLongField`: string payload parsed by
`strconv.ParseInt(v, 0, 64)` (decimal, hex and octal notations); anything else
is an error. -/
def parseNumberLongField (jsonValue : Value) : Except GoErr Int :=
  match jsonValue with
  | .vStr v => goParseInt v.data 0 64
  | _ => .error "expected $numberLong field to have string value"

/-- The `$date` single-field handler of `ParseSpecialKeys`, with the
caller-supplied date-string parser (`util.FormatDate`) abstracted as `fd`. -/
def handleDate (fd : String → Except GoErr (Int × Int)) (jsonValue : Value) : Except GoErr Value :=
  match jsonValue with
  | .vStr v => (fd v).map (fun t => .vTime t.1 t.2)
  | .vD v =>
    match lookupKV (dMap v) "$numberLong" with
    | some inner =>
      (parseNumberLongField inner).map (fun n => timeUnix (Int.tdiv n 1000) (Int.tmod n 1000 * 1000000))
    | none => .error "expected $numberLong field in $date"
  | .vMap m =>
    match lookupKV m "$numberLong" with
    | some inner =>
      (parseNumberLongField inner).map (fun n => timeUnix (Int.tdiv n 1000) (Int.tmod n 1000 * 1000000))
    | none => .error "expected $numberLong field in $date"
  | .vJsonNumber s =>
    (goParseInt s.data 10 64).map (fun n => timeUnix (Int.tdiv n 1000) (Int.tmod n 1000 * 1000000))
  | .vFloat64 n => .ok (timeUnix (Int.tdiv n 1000) (Int.tmod n 1000 * 1000000))
  | .vInt32 n => .ok (timeUnix (Int.tdiv n 1000) (Int.tmod n 1000 * 1000000))
  | .vInt64 n => .ok (timeUnix (Int.tdiv n 1000) (Int.tmod n 1000 * 1000000))
  | .vISODate s => .ok (.vISODate s)
  | _ => .error "invalid type for $date field"

/-- The `$code` single-field handler. -/
def handleCode (jsonValue : Value) : Except GoErr Value :=
  match jsonValue with
  | .vStr v => .ok (.vJavaScript v)
  | _ => .error "expected $code field to have string value"

/-- Modelled from the spec: `primitive.ObjectIDFromHex` (mongo driver, not part
of the repository sources): the payload "must decode as a 24-hex-character
object identifier; invalid hex or wrong length is a fatal error". -/
def objectIDFromHex (s : String) : Except GoErr Value :=
  if s.length ≠ 24 then .error "the provided hex string is not a valid ObjectID"
  else (goHexDecode s.data).map .vObjectID

/-- The `$oid` single-field handler. -/
def handleOid (jsonValue : Value) : Except GoErr Value :=
  match jsonValue with
  | .vStr v => objectIDFromHex v
  | _ => .error "expected $oid field to have string value"

/-- The `$numberLong` single-field handler. -/
def handleNumberLong (jsonValue : Value) : Except GoErr Value :=
  (parseNumberLongField jsonValue).map .vInt64

/-- The `$numberInt` single-field handler: `strconv.ParseInt(v, 0, 32)`
(decimal, hex, and octal all supported), result as `int32`. -/
def handleNumberInt (jsonValue : Value) : Except GoErr Value :=
  match jsonValue with
  | .vStr v => (goParseInt v.data 0 32).map .vInt32
  | _ => .error "expected $numberInt field to have string value"

/-- Modelled from the spec: `util.ToUInt32` (mongo-tools util package, not part
of the repository sources): `$timestamp` fields are "coerced to unsigned
32-bit integers" and a "non-numeric coercion failure is fatal"; numeric values
in `[0, 2^32)` coerce, everything else fails. -/
def toUInt32 : Value → Except GoErr Nat
  | .vInt32 n => if 0 ≤ n ∧ n < 4294967296 then .ok n.toNat else .error "value out of range"
  | .vInt64 n => if 0 ≤ n ∧ n < 4294967296 then .ok n.toNat else .error "value out of range"
  | .vFloat64 n => if 0 ≤ n ∧ n < 4294967296 then .ok n.toNat else .error "value out of range"
  | _ => .error "non-numeric value"

/-- The `$timestamp` single-field handler: payload must be a document with
`t` and `i` fields, both coerced to unsigned 32-bit integers. -/
def handleTimestamp (jsonValue : Value) : Except GoErr Value :=
  match (match jsonValue with
        | .vMap m => Except.ok m
        | .vD d => Except.ok (dMap d)
        | _ => Except.error "expected $timestamp key to have internal document") with
  | .error e => .error e
  | .ok tsDoc =>
    match lookupKV tsDoc "t" with
    | none => .error "expected $timestamp to have t field"
    | some seconds =>
      match toUInt32 seconds with
      | .error _ => .error "expected $timestamp t field to be a numeric type"
      | .ok t =>
        match lookupKV tsDoc "i" with
        | none => .error "expected $timestamp to have i field"
        | some inc =>
          match toUInt32 inc with
          | .error _ => .error "expected $timestamp i field to be a numeric type"
          | .ok i => .ok (.vTimestamp t i)

def isDigitChar (c : Char) : Bool := '0' ≤ c ∧ c ≤ '9'

/-- Modelled from the spec: `primitive.ParseDecimal128` (mongo driver, not part
of the repository sources): "string payload required, parsed as 128-bit
decimal; malformed literal is fatal".  Modelled as a validity check on a
simple decimal grammar (optional sign, digits with at most one point, optional
exponent), keeping the literal. -/
def decimalLiteralOK (s : String) : Bool :=
  let body := match s.data with
    | c :: rest => if c = '+' ∨ c = '-' then rest else s.data
    | [] => []
  let ip := body.takeWhile isDigitChar
  let r1 := body.dropWhile isDigitChar
  let fp := match r1 with
    | '.' :: t => t.takeWhile isDigitChar
    | _ => []
  let r2 := match r1 with
    | '.' :: t => t.dropWhile isDigitChar
    | _ => r1
  if ip.isEmpty ∧ fp.isEmpty then false
  else
    match r2 with
    | [] => true
    | e :: t =>
      if e = 'e' ∨ e = 'E' then
        let t2 := match t with
          | c :: rest2 => if c = '+' ∨ c = '-' then rest2 else t
          | [] => []
        ¬ t2.isEmpty ∧ t2.all isDigitChar
      else false

def parseDecimal128 (s : String) : Except GoErr Value :=
  if decimalLiteralOK s then .ok (.vDecimal128 s) else .error "cannot parse Decimal128"

/-- The `$numberDecimal` single-field handler. -/
def handleNumberDecimal (jsonValue : Value) : Except GoErr Value :=
  match jsonValue with
  | .vStr v => parseDecimal128 v
  | _ => .error "expected $numberDecimal field to have string value"

def regexOptChar (c : Char) : Bool := c = 'g' ∨ c = 'i' ∨ c = 'm' ∨ c = 's'

/-- The option-validation loop of the `$regex` handler: each option character
must be one of `g`, `i`, `m`, `s`; the error carries the numeric value of the
offending character exactly as Go prints the offending byte. -/
def validateRegexOptions : List Char → Except GoErr Unit
  | [] => .ok ()
  | c :: rest =>
    if regexOptChar c then validateRegexOptions rest
    else .error ("invalid regular expression option " ++ toString c.toNat)

/-- The `{$regex, $options}` two-field handler; `jsonValue` is `doc["$regex"]`. -/
def handleRegex (doc : List (String × Value)) (jsonValue : Value) : Except GoErr Value :=
  match jsonValue with
  | .vStr pattern =>
    match lookupKV doc "$options" with
    | none => .error "expected $options field with $regex field"
    | some ov =>
      match ov with
      | .vStr options =>
        match validateRegexOptions options.data with
        | .error e => .error e
        | .ok _ => .ok (.vRegex pattern options)
      | _ => .error "expected $options field to have string value"
  | _ => .error "expected $regex field to have string value"

/-- The `{$binary, $type}` two-field handler; `jsonValue` is `doc["$binary"]`. -/
def handleBinary (doc : List (String × Value)) (jsonValue : Value) : Except GoErr Value :=
  match jsonValue with
  | .vStr data =>
    match goBase64Decode data with
    | .error e => .error e
    | .ok bytes =>
      match lookupKV doc "$type" with
      | none => .error "expected $type field with $binary field"
      | some tv =>
        match tv with
        | .vStr typ =>
          match goHexDecode typ.data with
          | .error e => .error e
          | .ok kind =>
            if kind.length ≠ 1 then
              .error "expected single byte (as hexadecimal string) for $type field"
            else .ok (.vBinary (kind.headD 0) bytes)
        | _ => .error "expected $type field to have string value"
  | _ => .error "expected $binary field to have string value"

/- Termination helpers for the mutual decoder below: a value obtained by map
lookup is structurally smaller than the document it came from, also through
`bson.D.Map()` key deduplication. -/

theorem lookupKV_mem {m : List (String × Value)} {k : String} {v : Value}
    (h : lookupKV m k = some v) : (k, v) ∈ m := by
  induction m with
  | nil => simp [lookupKV] at h
  | cons p rest ih =>
    obtain ⟨pk, pv⟩ := p
    by_cases hk : pk = k
    · subst hk
      simp [lookupKV] at h
      simp [h]
    · simp [lookupKV, hk] at h
      exact List.mem_cons_of_mem _ (ih h)

theorem mem_insertKV {m : List (String × Value)} {p q : String × Value}
    (h : p ∈ insertKV m q) : p ∈ m ∨ p = q := by
  induction m with
  | nil => simp [insertKV] at h; simp [h]
  | cons r rest ih =>
    obtain ⟨rk, rv⟩ := r
    by_cases hk : rk = q.1
    · simp [insertKV, hk] at h
      rcases h with h | h
      · right; rw [h]
      · left; exact List.mem_cons_of_mem _ h
    · simp [insertKV, hk] at h
      rcases h with h | h
      · left; simp [h]
      · rcases ih h with h2 | h2
        · left; exact List.mem_cons_of_mem _ h2
        · right; exact h2

theorem mem_foldl_insertKV {l acc : List (String × Value)} {p : String × Value}
    (h : p ∈ List.foldl insertKV acc l) : p ∈ acc ∨ p ∈ l := by
  induction l generalizing acc with
  | nil => exact Or.inl h
  | cons x xs ih =>
    simp only [List.foldl_cons] at h
    rcases ih h with h2 | h2
    · rcases mem_insertKV h2 with h3 | h3
      · exact Or.inl h3
      · right; simp [h3]
    · right; exact List.mem_cons_of_mem _ h2

theorem mem_dMap {d : List (String × Value)} {p : String × Value}
    (h : p ∈ dMap d) : p ∈ d := by
  rcases mem_foldl_insertKV h with h2 | h2
  · simp at h2
  · exact h2

theorem sizeOf_lt_of_lookup {m : List (String × Value)} {k : String} {v : Value}
    (h : lookupKV m k = some v) : sizeOf v < sizeOf m := by
  have hm := List.sizeOf_lt_of_mem (lookupKV_mem h)
  simp only [Prod.mk.sizeOf_spec] at hm
  omega

theorem sizeOf_lt_of_lookup_dMap {d : List (String × Value)} {k : String} {v : Value}
    (h : lookupKV (dMap d) k = some v) : sizeOf v < sizeOf d := by
  have hm := List.sizeOf_lt_of_mem (mem_dMap (lookupKV_mem h))
  simp only [Prod.mk.sizeOf_spec] at hm
  omega

theorem sizeOf_insertKV_le (m : List (String × Value)) (p : String × Value) :
    sizeOf (insertKV m p) ≤ sizeOf m + sizeOf p + 1 := by
  induction m with
  | nil => simp [insertKV]
  | cons r rest ih =>
    obtain ⟨rk, rv⟩ := r
    by_cases hk : rk = p.1
    · simp [insertKV, hk, Prod.mk.sizeOf_spec]
      omega
    · simp [insertKV, hk, Prod.mk.sizeOf_spec]
      omega

theorem sizeOf_foldl_insertKV (l : List (String × Value)) :
    ∀ acc, sizeOf (List.foldl insertKV acc l) + 1 ≤ sizeOf acc + sizeOf l := by
  induction l with
  | nil => intro acc; simp
  | cons x xs ih =>
    intro acc
    simp only [List.foldl_cons, List.cons.sizeOf_spec]
    have h1 := ih (insertKV acc x)
    have h2 := sizeOf_insertKV_le acc x
    omega

theorem sizeOf_dMap_le (d : List (String × Value)) : sizeOf (dMap d) ≤ sizeOf d := by
  have h := sizeOf_foldl_insertKV d ([] : List (String × Value))
  simp only [dMap]
  simp at h
  omega

mutual

/-- `bsonutil.ParseSpecialKeys`: given a JSON document value (`bson.D` or a
Go map), inspect it for extended-JSON special keys and replace it with the
corresponding typed value.  A `bson.D` is first key-deduplicated by
`bson.D.Map()` (`dMap`); the dispatch on the number of (distinct) keys and on
the key names is `matchSpecial`; when nothing matches, recursion descends into
the original representation.  `fd` abstracts the caller-supplied date-string
parser `util.FormatDate`. -/
def ParseSpecialKeys (fd : String → Except GoErr (Int × Int)) (special : Value) :
    Except GoErr Value :=
  match special with
  | .vD dd =>
    match matchSpecial fd (dMap dd) with
    | some r => r
    | none => (GetExtendedBsonD fd dd).map .vD
  | .vMap m =>
    match matchSpecial fd m with
    | some r => r
    | none => ConvertLegacyExtJSONValueToBSON fd (.vMap m)
  | _ => .error "is not valid input to ParseSpecialKeys"

  termination_by (sizeOf special, 2)
  decreasing_by
    all_goals simp_wf
    all_goals simp only [Prod.lex_iff]
    all_goals try (have hdm := sizeOf_dMap_le dd)
    all_goals try (have hlk := sizeOf_lt_of_lookup hs)
    all_goals simp_all
    all_goals omega

/-- The special-shape dispatch of `ParseSpecialKeys` (the `switch len(doc)`
over the key-deduplicated document): `none` means no special form matched, in
which case `ParseSpecialKeys` recurses into the original representation. -/
def matchSpecial (fd : String → Except GoErr (Int × Int))
    (doc : List (String × Value)) : Option (Except GoErr Value) :=
  if doc.length = 1 then
    match lookupKV doc "$date" with
    | some jsonValue => some (handleDate fd jsonValue)
    | none =>
    match lookupKV doc "$code" with
    | some jsonValue => some (handleCode jsonValue)
    | none =>
    match lookupKV doc "$oid" with
    | some jsonValue => some (handleOid jsonValue)
    | none =>
    match lookupKV doc "$numberLong" with
    | some jsonValue => some (handleNumberLong jsonValue)
    | none =>
    match lookupKV doc "$numberInt" with
    | some jsonValue => some (handleNumberInt jsonValue)
    | none =>
    match lookupKV doc "$timestamp" with
    | some jsonValue => some (handleTimestamp jsonValue)
    | none =>
    match lookupKV doc "$numberDecimal" with
    | some jsonValue => some (handleNumberDecimal jsonValue)
    | none =>
    match lookupKV doc "$undefined" with
    | some _ => some (.ok .vUndefined)
    | none =>
    match lookupKV doc "$maxKey" with
    | some _ => some (.ok .vMaxKey)
    | none =>
    match lookupKV doc "$minKey" with
    | some _ => some (.ok .vMinKey)
    | none => none
  else if doc.length = 2 then
    match lookupKV doc "$code" with
    | some jsonValue => some (handleCodeScope fd doc jsonValue)
    | none =>
    match lookupKV doc "$regex" with
    | some jsonValue => some (handleRegex doc jsonValue)
    | none =>
    match lookupKV doc "$binary" with
    | some jsonValue => some (handleBinary doc jsonValue)
    | none => none
  else none

  termination_by (sizeOf doc, 1)
  decreasing_by
    all_goals simp_wf
    all_goals simp only [Prod.lex_iff]
    all_goals try (have hdm := sizeOf_dMap_le dd)
    all_goals try (have hlk := sizeOf_lt_of_lookup hs)
    all_goals simp_all
    all_goals omega

/-- The `{$code, $scope}` two-field handler; `jsonValue` is `doc["$code"]`.
The `$scope` sub-document is itself decoded by `ParseSpecialKeys`. -/
def handleCodeScope (fd : String → Except GoErr (Int × Int))
    (doc : List (String × Value)) (jsonValue : Value) : Except GoErr Value :=
  match jsonValue with
  | .vStr code =>
    match hs : lookupKV doc "$scope" with
    | some (.vMap m) => (ParseSpecialKeys fd (.vMap m)).map (.vCodeWithScope code)
    | some (.vD d) => (ParseSpecialKeys fd (.vD d)).map (.vCodeWithScope code)
    | some _ => .error "expected $scope field to contain map"
    | none => .error "expected $scope field with $code field"
  | _ => .error "expected $code field to have string value"

  termination_by (sizeOf doc, 0)
  decreasing_by
    all_goals simp_wf
    all_goals simp only [Prod.lex_iff]
    all_goals try (have hdm := sizeOf_dMap_le dd)
    all_goals try (have hlk := sizeOf_lt_of_lookup hs)
    all_goals simp_all
    all_goals omega

/-- `bsonutil.GetExtendedBsonD`: decode every field of an ordered document,
sending sub-documents through `ParseSpecialKeys` and other values through the
general conversion. -/
def GetExtendedBsonD (fd : String → Except GoErr (Int × Int)) :
    List (String × Value) → Except GoErr (List (String × Value))
  | [] => .ok []
  | (key, v) :: rest =>
    match (match hv : v with
          | .vMap m => ParseSpecialKeys fd (.vMap m)
          | .vD d => ParseSpecialKeys fd (.vD d)
          | _ => ConvertLegacyExtJSONValueToBSON fd v) with
    | .error e => .error e
    | .ok bsonValue => (GetExtendedBsonD fd rest).map (fun tail => (key, bsonValue) :: tail)

  termination_by d => (sizeOf d, 0)
  decreasing_by
    all_goals simp_wf
    all_goals simp only [Prod.lex_iff]
    all_goals try (have hdm := sizeOf_dMap_le dd)
    all_goals try (have hlk := sizeOf_lt_of_lookup hs)
    all_goals simp_all
    all_goals omega

/-- `bsonutil.ConvertLegacyExtJSONDocumentToBSON`: decode every field of a
JSON-object document, sending sub-documents through `ParseSpecialKeys` and
other values through the general conversion. -/
def ConvertLegacyExtJSONDocumentToBSON (fd : String → Except GoErr (Int × Int)) :
    List (String × Value) → Except GoErr (List (String × Value))
  | [] => .ok []
  | (key, jsonValue) :: rest =>
    match (match hj : jsonValue with
          | .vMap m => ParseSpecialKeys fd (.vMap m)
          | .vD d => ParseSpecialKeys fd (.vD d)
          | _ => ConvertLegacyExtJSONValueToBSON fd jsonValue) with
    | .error e => .error e
    | .ok bsonValue =>
      (ConvertLegacyExtJSONDocumentToBSON fd rest).map (fun tail => (key, bsonValue) :: tail)

  termination_by m => (sizeOf m, 0)
  decreasing_by
    all_goals simp_wf
    all_goals simp only [Prod.lex_iff]
    all_goals try (have hdm := sizeOf_dMap_le dd)
    all_goals try (have hlk := sizeOf_lt_of_lookup hs)
    all_goals simp_all
    all_goals omega

/-- Modelled from the spec: `ConvertLegacyExtJSONValueToBSON` is declared in
this repository's `bsonutil` package but its defining file is not among the
sources (only its callers are).  Per the spec (4.2 step 3): "for non-document
values, map through a general value coercion (loose JSON → Typed Value ...)
with no further special-key interpretation; for documents/lists, decode every
element".  In this embedding loose scalars and already-typed wrapper values
are their own coercion, so non-document values pass through unchanged;
documents decode every field and lists every element. -/
def ConvertLegacyExtJSONValueToBSON (fd : String → Except GoErr (Int × Int))
    (v : Value) : Except GoErr Value :=
  match v with
  | .vD d => (GetExtendedBsonD fd d).map .vD
  | .vMap m => (ConvertLegacyExtJSONDocumentToBSON fd m).map .vMap
  | .vArr xs => (convertArray fd xs).map .vArr
  | x => .ok x

  termination_by (sizeOf v, 0)
  decreasing_by
    all_goals simp_wf
    all_goals simp only [Prod.lex_iff]
    all_goals try (have hdm := sizeOf_dMap_le dd)
    all_goals try (have hlk := sizeOf_lt_of_lookup hs)
    all_goals simp_all
    all_goals omega

/-- Element-wise decoding of a JSON array (the list case of the general
conversion): each element is dispatched as in `ParseLegacyExtJSONValue`. -/
def convertArray (fd : String → Except GoErr (Int × Int)) :
    List Value → Except GoErr (List Value)
  | [] => .ok []
  | x :: rest =>
    match (match hx : x with
          | .vMap m => ParseSpecialKeys fd (.vMap m)
          | .vD d => ParseSpecialKeys fd (.vD d)
          | _ => ConvertLegacyExtJSONValueToBSON fd x) with
    | .error e => .error e
    | .ok y => (convertArray fd rest).map (fun tail => y :: tail)

  termination_by xs => (sizeOf xs, 0)
  decreasing_by
    all_goals simp_wf
    all_goals simp only [Prod.lex_iff]
    all_goals try (have hdm := sizeOf_dMap_le dd)
    all_goals try (have hlk := sizeOf_lt_of_lookup hs)
    all_goals simp_all
    all_goals omega

end

/-- `bsonutil.ParseLegacyExtJSONValue`: documents go to `ParseSpecialKeys`,
everything else to the general conversion. -/
def ParseLegacyExtJSONValue (fd : String → Except GoErr (Int × Int))
    (jsonValue : Value) : Except GoErr Value :=
  match jsonValue with
  | .vMap m => ParseSpecialKeys fd (.vMap m)
  | .vD d => ParseSpecialKeys fd (.vD d)
  | _ => ConvertLegacyExtJSONValueToBSON fd jsonValue

/-- The fixed 4-byte terminator `bytes.Repeat([]byte{0xff}, 4)` from main.go. -/
def terminatorBytes : List Nat := [0xff, 0xff, 0xff, 0xff]

/-- Modelled from the spec: `archive.MagicNumber` (vendored mongo-tools archive
package, not among the repository sources); the spec only calls it "the
format's fixed magic constant", and no claim depends on its value. -/
def magicNumber : Nat := 0x8199e26d

/-- `binary.LittleEndian.Uint32` on a 4-byte slice. -/
def le32 : List Nat → Nat
  | [b0, b1, b2, b3] => b0 + 256 * b1 + 65536 * b2 + 16777216 * b3
  | _ => 0

/-- `errors.Wrap` of github.com/pkg/errors on a non-nil error. -/
def wrapErr (msg : String) (e : GoErr) : GoErr := msg ++ ": " ++ e

/-- `errors.Wrap`/`errors.Wrapf` of github.com/pkg/errors: wrapping a nil
error yields nil. -/
def wrapOpt (msg : String) : Option GoErr → Option GoErr
  | none => none
  | some e => some (wrapErr msg e)

/-- `checkMagicBytes` (main.go): read exactly 4 bytes (`io.ReadFull`),
interpret them as a little-endian uint32 and compare with the magic constant.
Result is the returned Go error (`none` = nil); on success exactly the 4 bytes
have been consumed. -/
def checkMagicBytes (input : List Nat) : Option GoErr :=
  if input.length < 4 then
    some (wrapErr "failed to read archive magic bytes" "unexpected EOF")
  else if le32 (input.take 4) ≠ magicNumber then
    some "unexpected magic number header"
  else none

/-- A document reader abstracting `readBSON` (main.go), whose body delegates to
`bson.ReadDocument` and `bson.Unmarshal` of the mongo driver (a library
outside this repository): from a byte stream it either produces a decoded
document together with the remaining stream, or an error.  A successful BSON
document read always consumes at least one byte (a document is at least 5
bytes on the wire), which is the `consumes` field. -/
structure Reader where
  read : List Nat → Except GoErr (List (String × Value) × List Nat)
  consumes : ∀ s d r, read s = .ok (d, r) → r.length < s.length

/-- The metadata-field scan of `getCollectionMetadata`
(`for i := range mdDoc`): every field named `metadata` with a string value is
re-parsed with `parseExt` (abstracting `bson.UnmarshalExtJSON`); on parse
failure a diagnostic is written to the error output and the original string
kept; on success the parsed document replaces the string in place.  A field
named `metadata` whose value is not a string makes `getCollectionMetadata`
return immediately (`none` here).  Returns the updated document (or `none`
for that abort) together with the diagnostics written so far. -/
def fixupMetadata (parseExt : String → Except GoErr (List (String × Value))) :
    List (String × Value) → Option (List (String × Value)) × List String
  | [] => (some [], [])
  | (k, v) :: rest =>
    if k = "metadata" then
      match v with
      | .vStr s =>
        match parseExt s with
        | .ok parsed =>
          let rd := fixupMetadata parseExt rest
          (rd.1.map (fun t => (k, Value.vD parsed) :: t), rd.2)
        | .error e =>
          let rd := fixupMetadata parseExt rest
          (rd.1.map (fun t => (k, v) :: t),
            ("failed to parse collection metadata string: " ++ e) :: rd.2)
      | _ => (none, [])
    else
      let rd := fixupMetadata parseExt rest
      (rd.1.map (fun t => (k, v) :: t), rd.2)

/-- Result of `getCollectionMetadata`: the returned document slice (`none`
models a Go nil slice), the returned error (`none` = nil), and the
diagnostics written to `errOut`. -/
structure GCMOut where
  docs : Option (List (List (String × Value)))
  err : Option GoErr
  diags : List String

/-- The loop of `getCollectionMetadata` (main.go): peek 4 bytes (an error if
fewer remain), stop at the terminator without consuming it, otherwise read one
document, rewrite its `metadata` fields, append it and continue.  The
non-string-metadata return wraps a nil error (`errors.Wrapf` on nil), so it
returns a nil slice and a nil error. -/
def getCollectionMetadataLoop (rd : Reader)
    (parseExt : String → Except GoErr (List (String × Value)))
    (stream : List Nat) (acc : List (List (String × Value))) (diags : List String) : GCMOut :=
  if stream.length < 4 then
    ⟨none, some (wrapErr "failed to check for end of collection metadata" "unexpected EOF"), diags⟩
  else if stream.take 4 = terminatorBytes then
    ⟨some acc, none, diags⟩
  else
    match hr : rd.read stream with
    | .error e => ⟨none, some (wrapErr "failed to read collection metadata document" e), diags⟩
    | .ok (mdDoc, rest) =>
      match fixupMetadata parseExt mdDoc with
      | (none, ds) =>
        ⟨none, wrapOpt "expected collection metadata to be a string" none, diags ++ ds⟩
      | (some doc2, ds) => getCollectionMetadataLoop rd parseExt rest (acc ++ [doc2]) (diags ++ ds)
termination_by stream.length
decreasing_by exact rd.consumes stream mdDoc rest hr

/-- `getCollectionMetadata` (main.go), starting with an empty output slice and
no diagnostics. -/
def getCollectionMetadata (rd : Reader)
    (parseExt : String → Except GoErr (List (String × Value)))
    (stream : List Nat) : GCMOut :=
  getCollectionMetadataLoop rd parseExt stream [] []

/-- The `Report` of main.go: the header document and the collection metadata
documents (`none` models a Go nil slice). -/
structure Report where
  header : List (String × Value)
  collectionMetadata : Option (List (List (String × Value)))

/-- `getReport` (main.go): magic-number check, one header document read, then
the collection metadata loop.  Returns the result (report or error) together
with the diagnostics written to the error output. -/
def getReport (rd : Reader)
    (parseExt : String → Except GoErr (List (String × Value)))
    (input : List Nat) : Except GoErr Report × List String :=
  match checkMagicBytes input with
  | some e => (.error (wrapErr "this does not appear to be a mongodump archive" e), [])
  | none =>
    match rd.read (input.drop 4) with
    | .error e => (.error (wrapErr "failed to read archive header" e), [])
    | .ok (header, rest) =>
      match getCollectionMetadata rd parseExt rest with
      | ⟨_, some e, diags⟩ => (.error (wrapErr "failed to read collection metadata" e), diags)
      | ⟨docs, none, diags⟩ => (.ok ⟨header, docs⟩, diags)

/-- A simple concrete reader used to instantiate theorems: it consumes 5 bytes
(the minimal wire size of a BSON document) and returns the fixed document. -/
def constReader (d : List (String × Value)) : Reader where
  read s := if 5 ≤ s.length then .ok (d, s.drop 5) else .error "unexpected EOF"
  consumes := by
    intro s d' r h
    by_cases h5 : 5 ≤ s.length
    · simp only [h5, if_pos] at h
      cases h
      simp only [List.length_drop]
      omega
    · simp [h5] at h

/-- Which special form, if any, the dispatch of `ParseSpecialKeys` recognizes:
a function of the number of (distinct) keys and of which special keys are
present, following the priority order of the source. -/
def classifySpecial (m : List (String × Value)) : Option String :=
  if m.length = 1 then
    if (lookupKV m "$date").isSome then some "$date"
    else if (lookupKV m "$code").isSome then some "$code"
    else if (lookupKV m "$oid").isSome then some "$oid"
    else if (lookupKV m "$numberLong").isSome then some "$numberLong"
    else if (lookupKV m "$numberInt").isSome then some "$numberInt"
    else if (lookupKV m "$timestamp").isSome then some "$timestamp"
    else if (lookupKV m "$numberDecimal").isSome then some "$numberDecimal"
    else if (lookupKV m "$undefined").isSome then some "$undefined"
    else if (lookupKV m "$maxKey").isSome then some "$maxKey"
    else if (lookupKV m "$minKey").isSome then some "$minKey"
    else none
  else if m.length = 2 then
    if (lookupKV m "$code").isSome then some "$code"
    else if (lookupKV m "$regex").isSome then some "$regex"
    else if (lookupKV m "$binary").isSome then some "$binary"
    else none
  else none

/-- Positional value of a digit string starting from accumulator `n`, with
digit values as in Go's parse loop. -/
def digitsFrom (base : Nat) (n : Nat) (l : List Char) : Nat :=
  l.foldl (fun acc c => acc * base + (digitVal c).getD 0) n

/-- Positional value of a digit string in the given base. -/
def digitsToNat (base : Nat) (l : List Char) : Nat :=
  digitsFrom base 0 l

/-! Shared lemmas: how `ParseSpecialKeys` dispatches on concretely-shaped
documents, and basic facts about the embedding. -/

theorem psk_vD_eq (fd : String → Except GoErr (Int × Int)) (d : List (String × Value)) :
    ParseSpecialKeys fd (.vD d) =
      (match matchSpecial fd (dMap d) with
       | some r => r
       | none => (GetExtendedBsonD fd d).map .vD) := by
  rw [ParseSpecialKeys]

theorem psk_vMap_eq (fd : String → Except GoErr (Int × Int)) (m : List (String × Value)) :
    ParseSpecialKeys fd (.vMap m) =
      (match matchSpecial fd m with
       | some r => r
       | none => ConvertLegacyExtJSONValueToBSON fd (.vMap m)) := by
  rw [ParseSpecialKeys]

theorem psk_date (fd : String → Except GoErr (Int × Int)) (v : Value) :
    ParseSpecialKeys fd (.vD [("$date", v)]) = handleDate fd v := by
  rw [ParseSpecialKeys]; simp [dMap, insertKV, matchSpecial, lookupKV]

theorem psk_code (fd : String → Except GoErr (Int × Int)) (v : Value) :
    ParseSpecialKeys fd (.vD [("$code", v)]) = handleCode v := by
  rw [ParseSpecialKeys]; simp [dMap, insertKV, matchSpecial, lookupKV]

theorem psk_oid (fd : String → Except GoErr (Int × Int)) (v : Value) :
    ParseSpecialKeys fd (.vD [("$oid", v)]) = handleOid v := by
  rw [ParseSpecialKeys]; simp [dMap, insertKV, matchSpecial, lookupKV]

theorem psk_numberLong (fd : String → Except GoErr (Int × Int)) (v : Value) :
    ParseSpecialKeys fd (.vD [("$numberLong", v)]) = handleNumberLong v := by
  rw [ParseSpecialKeys]; simp [dMap, insertKV, matchSpecial, lookupKV]

theorem psk_numberInt (fd : String → Except GoErr (Int × Int)) (v : Value) :
    ParseSpecialKeys fd (.vD [("$numberInt", v)]) = handleNumberInt v := by
  rw [ParseSpecialKeys]; simp [dMap, insertKV, matchSpecial, lookupKV]

theorem psk_timestamp (fd : String → Except GoErr (Int × Int)) (v : Value) :
    ParseSpecialKeys fd (.vD [("$timestamp", v)]) = handleTimestamp v := by
  rw [ParseSpecialKeys]; simp [dMap, insertKV, matchSpecial, lookupKV]

theorem psk_numberDecimal (fd : String → Except GoErr (Int × Int)) (v : Value) :
    ParseSpecialKeys fd (.vD [("$numberDecimal", v)]) = handleNumberDecimal v := by
  rw [ParseSpecialKeys]; simp [dMap, insertKV, matchSpecial, lookupKV]

theorem psk_undefined (fd : String → Except GoErr (Int × Int)) (v : Value) :
    ParseSpecialKeys fd (.vD [("$undefined", v)]) = .ok .vUndefined := by
  rw [ParseSpecialKeys]; simp [dMap, insertKV, matchSpecial, lookupKV]

theorem psk_maxKey (fd : String → Except GoErr (Int × Int)) (v : Value) :
    ParseSpecialKeys fd (.vD [("$maxKey", v)]) = .ok .vMaxKey := by
  rw [ParseSpecialKeys]; simp [dMap, insertKV, matchSpecial, lookupKV]

theorem psk_minKey (fd : String → Except GoErr (Int × Int)) (v : Value) :
    ParseSpecialKeys fd (.vD [("$minKey", v)]) = .ok .vMinKey := by
  rw [ParseSpecialKeys]; simp [dMap, insertKV, matchSpecial, lookupKV]

theorem psk_regex_options (fd : String → Except GoErr (Int × Int)) (pv ov : Value) :
    ParseSpecialKeys fd (.vD [("$regex", pv), ("$options", ov)]) =
      handleRegex [("$regex", pv), ("$options", ov)] pv := by
  rw [ParseSpecialKeys]; simp [dMap, insertKV, matchSpecial, lookupKV]

theorem psk_binary_type (fd : String → Except GoErr (Int × Int)) (bv tv : Value) :
    ParseSpecialKeys fd (.vD [("$binary", bv), ("$type", tv)]) =
      handleBinary [("$binary", bv), ("$type", tv)] bv := by
  rw [ParseSpecialKeys]; simp [dMap, insertKV, matchSpecial, lookupKV]

/-- The metadata loop stops at the terminator: shared helper for the claims
about the archive walker. -/
theorem gcm_stops_at_terminator (rd : Reader)
    (parseExt : String → Except GoErr (List (String × Value)))
    (stream : List Nat) (ht : stream.take 4 = terminatorBytes) :
    getCollectionMetadata rd parseExt stream = ⟨some [], none, []⟩ := by
  have hlen : 4 ≤ stream.length := by
    have := congrArg List.length ht
    simp [List.length_take, terminatorBytes] at this
    omega
  rw [getCollectionMetadata, getCollectionMetadataLoop]
  simp [ht, Nat.not_lt.mpr hlen]

/-- C4: the magic-number check succeeds exactly when the first 4 bytes of the
stream, read as a little-endian unsigned 32-bit integer, equal the archive's
magic constant; on any other 4-byte value `getReport` aborts with the
format-mismatch error, for every reader and every metadata parser, so no
header or metadata read is attempted. -/
theorem magic_mismatch_aborts :
    (∀ b0 b1 b2 b3 : Nat, ∀ rest : List Nat,
      checkMagicBytes (b0 :: b1 :: b2 :: b3 :: rest) = none ↔
        le32 [b0, b1, b2, b3] = magicNumber) ∧
    (∀ b0 b1 b2 b3 : Nat, ∀ rest : List Nat, ∀ rd : Reader,
      ∀ parseExt : String → Except GoErr (List (String × Value)),
      le32 [b0, b1, b2, b3] ≠ magicNumber →
        getReport rd parseExt (b0 :: b1 :: b2 :: b3 :: rest) =
          (.error (wrapErr "this does not appear to be a mongodump archive"
            "unexpected magic number header"), [])) := by
  constructor
  · intro b0 b1 b2 b3 rest
    have h4 : ¬ (rest.length + 1 + 1 + 1 + 1 < 4) := by omega
    simp only [checkMagicBytes, List.length_cons, List.take_succ_cons, List.take_zero]
    rw [if_neg h4]
    split_ifs with h
    · simp [h]
    · simp [not_not.mp h]
  · intro b0 b1 b2 b3 rest rd parseExt hne
    have h4 : ¬ (rest.length + 1 + 1 + 1 + 1 < 4) := by omega
    rw [getReport]
    simp [checkMagicBytes, hne, h4]

/-- Witness for C4 at the all-zero 4-byte value. -/
theorem magic_mismatch_aborts_witness :
    getReport (constReader []) (fun _ => .error "e") [0, 0, 0, 0] =
      (.error (wrapErr "this does not appear to be a mongodump archive"
        "unexpected magic number header"), []) :=
  magic_mismatch_aborts.2 0 0 0 0 [] (constReader []) (fun _ => .error "e") (by decide)

/-- C5: in the metadata phase the walker peeks 4 bytes before each document
read; whenever they are the 0xFF terminator it stops, without consuming them
and without attempting a document read at that position (the outcome does not
depend on the reader), so a metadata section that is immediately the
terminator yields a report with zero metadata documents. -/
theorem terminator_yields_no_metadata :
    (∀ rd : Reader, ∀ parseExt : String → Except GoErr (List (String × Value)),
      ∀ stream : List Nat, stream.take 4 = terminatorBytes →
      getCollectionMetadata rd parseExt stream = ⟨some [], none, []⟩) ∧
    (∀ rd : Reader, ∀ parseExt : String → Except GoErr (List (String × Value)),
      ∀ input : List Nat, ∀ header : List (String × Value), ∀ rest : List Nat,
      checkMagicBytes input = none →
      rd.read (input.drop 4) = .ok (header, rest) →
      rest.take 4 = terminatorBytes →
      getReport rd parseExt input = (.ok ⟨header, some []⟩, [])) := by
  refine ⟨gcm_stops_at_terminator, ?_⟩
  intro rd parseExt input header rest hmagic hread ht
  simp only [getReport, hmagic, hread, gcm_stops_at_terminator rd parseExt rest ht]

/-- Witness for C5: magic preamble, a 5-byte header document, then the
terminator immediately; the report has zero metadata documents. -/
theorem terminator_yields_no_metadata_witness :
    getReport (constReader [("version", .vStr "0.1")]) (fun _ => .error "e")
        [109, 226, 153, 129, 0, 0, 0, 0, 0, 255, 255, 255, 255] =
      (.ok ⟨[("version", .vStr "0.1")], some []⟩, []) :=
  terminator_yields_no_metadata.2 (constReader [("version", .vStr "0.1")])
    (fun _ => .error "e") _ _ [255, 255, 255, 255] rfl rfl rfl

theorem validateRegexOptions_ok_iff (l : List Char) :
    validateRegexOptions l = .ok () ↔ ∀ c ∈ l, regexOptChar c := by
  induction l with
  | nil => simp [validateRegexOptions]
  | cons c rest ih =>
    by_cases hc : regexOptChar c
    · simp [validateRegexOptions, hc, ih]
    · simp [validateRegexOptions, hc]

theorem validateRegexOptions_err {l : List Char} (h : ∃ c ∈ l, ¬ regexOptChar c) :
    ∃ c, ¬ regexOptChar c ∧ c ∈ l ∧
      validateRegexOptions l =
        .error ("invalid regular expression option " ++ toString c.toNat) := by
  induction l with
  | nil => simp at h
  | cons c rest ih =>
    by_cases hc : regexOptChar c
    · obtain ⟨c', hc', hbad⟩ := h
      rcases List.mem_cons.mp hc' with h1 | h1
      · exact absurd (h1 ▸ hc) hbad
      · obtain ⟨c2, h2, h3, h4⟩ := ih ⟨c', h1, hbad⟩
        exact ⟨c2, h2, List.mem_cons_of_mem _ h3, by simp [validateRegexOptions, hc, h4]⟩
    · exact ⟨c, hc, List.mem_cons_self _ _, by simp [validateRegexOptions, hc]⟩

/-- C7: a two-field regex document requires both fields string-typed, and
decoding succeeds exactly when every options character is one of g,i,m,s;
otherwise the error names (the numeric value of) an offending character.
The empty options string and "gim" are accepted, "x" is rejected naming
character 120 = byte value of x. -/
theorem regex_options_validation :
    (∀ fd : String → Except GoErr (Int × Int), ∀ p o : String,
      ParseSpecialKeys fd (.vD [("$regex", .vStr p), ("$options", .vStr o)]) =
          .ok (.vRegex p o) ↔ ∀ c ∈ o.data, regexOptChar c) ∧
    (∀ fd : String → Except GoErr (Int × Int), ∀ p o : String,
      (∃ c ∈ o.data, ¬ regexOptChar c) →
      ∃ c, ¬ regexOptChar c ∧ c ∈ o.data ∧
        ParseSpecialKeys fd (.vD [("$regex", .vStr p), ("$options", .vStr o)]) =
          .error ("invalid regular expression option " ++ toString c.toNat)) ∧
    (∀ fd : String → Except GoErr (Int × Int), ∀ p : String, ∀ v : Value,
      (∀ s, v ≠ .vStr s) →
      ParseSpecialKeys fd (.vD [("$regex", .vStr p), ("$options", v)]) =
        .error "expected $options field to have string value") ∧
    (∀ fd : String → Except GoErr (Int × Int), ∀ v ov : Value,
      (∀ s, v ≠ .vStr s) →
      ParseSpecialKeys fd (.vD [("$regex", v), ("$options", ov)]) =
        .error "expected $regex field to have string value") ∧
    (∀ fd : String → Except GoErr (Int × Int), ∀ p : String,
      ParseSpecialKeys fd (.vD [("$regex", .vStr p), ("$options", .vStr "gim")]) =
          .ok (.vRegex p "gim") ∧
      ParseSpecialKeys fd (.vD [("$regex", .vStr p), ("$options", .vStr "")]) =
          .ok (.vRegex p "") ∧
      ParseSpecialKeys fd (.vD [("$regex", .vStr p), ("$options", .vStr "x")]) =
          .error ("invalid regular expression option " ++ toString 120)) := by
  have hok : ∀ fd p o, (∀ c ∈ String.data o, regexOptChar c) →
      ParseSpecialKeys fd (.vD [("$regex", .vStr p), ("$options", .vStr o)]) =
        .ok (.vRegex p o) := by
    intro fd p o h
    rw [psk_regex_options]
    simp [handleRegex, lookupKV, (validateRegexOptions_ok_iff o.data).mpr h]
  refine ⟨?_, ?_, ?_, ?_, ?_⟩
  · intro fd p o
    constructor
    · intro h
      by_contra hbad
      push_neg at hbad
      obtain ⟨c, hc, hco, herr⟩ := validateRegexOptions_err ⟨hbad.choose, hbad.choose_spec.1, hbad.choose_spec.2⟩
      rw [psk_regex_options] at h
      simp [handleRegex, lookupKV, herr] at h
    · exact hok fd p o
  · intro fd p o h
    obtain ⟨c, hc, hco, herr⟩ := validateRegexOptions_err h
    refine ⟨c, hc, hco, ?_⟩
    rw [psk_regex_options]
    simp [handleRegex, lookupKV, herr]
  · intro fd p v h
    rw [psk_regex_options]
    cases v <;> first
      | exact absurd rfl (h _)
      | simp [handleRegex, lookupKV]
  · intro fd v ov h
    rw [psk_regex_options]
    cases v <;> first
      | exact absurd rfl (h _)
      | simp [handleRegex]
  · intro fd p
    refine ⟨hok fd p "gim" (by decide), hok fd p "" (by decide), ?_⟩
    rw [psk_regex_options]
    have herr : validateRegexOptions "x".data =
        .error ("invalid regular expression option " ++ toString 120) := by rfl
    simp [handleRegex, lookupKV, herr]

/-- Witness for C7: the options string "x" has a non-gims character, and
decoding fails naming it. -/
theorem regex_options_validation_witness :
    ∃ c, ¬ regexOptChar c ∧ c ∈ "x".data ∧
      ParseSpecialKeys (fun _ => .error "e") (.vD [("$regex", .vStr "a"), ("$options", .vStr "x")]) =
        .error ("invalid regular expression option " ++ toString c.toNat) :=
  regex_options_validation.2.1 (fun _ => .error "e") "a" "x" ⟨'x', by decide, by decide⟩

theorem goHexDecode_length : ∀ (l : List Char) (bs : List Nat),
    goHexDecode l = .ok bs → 2 * bs.length = l.length
  | [], bs, h => by
    simp [goHexDecode] at h
    simp [← h]
  | [c], bs, h => by
    simp [goHexDecode] at h
  | c1 :: c2 :: rest, bs, h => by
    cases h1 : hexDigitVal c1 with
    | none => simp [goHexDecode, h1] at h
    | some hv =>
      cases h2 : hexDigitVal c2 with
      | none => simp [goHexDecode, h1, h2] at h
      | some lv =>
        cases hr : goHexDecode rest with
        | error e => simp [goHexDecode, h1, h2, hr, Except.map] at h
        | ok bs' =>
          simp [goHexDecode, h1, h2, hr, Except.map] at h
          have ih := goHexDecode_length rest bs' hr
          rw [← h]
          simp [List.length_cons]
          omega

/-- C8: in a two-field binary document the `$binary` string is base64-decoded
into the payload (malformed base64 is a fatal error, the base64 error itself),
and the `$type` string must hex-decode to exactly one subtype byte: `"00"`
yields subtype byte 0, and any `$type` string that is not exactly 2 hex
characters is a fatal error. -/
theorem binary_subtype_validation :
    (∀ fd : String → Except GoErr (Int × Int), ∀ b t : String, ∀ e : GoErr,
      goBase64Decode b = .error e →
      ParseSpecialKeys fd (.vD [("$binary", .vStr b), ("$type", .vStr t)]) = .error e) ∧
    (∀ fd : String → Except GoErr (Int × Int), ∀ b t : String, ∀ bs : List Nat, ∀ st : Nat,
      goBase64Decode b = .ok bs → goHexDecode t.data = .ok [st] →
      ParseSpecialKeys fd (.vD [("$binary", .vStr b), ("$type", .vStr t)]) =
        .ok (.vBinary st bs)) ∧
    (∀ fd : String → Except GoErr (Int × Int), ∀ b t : String, ∀ bs : List Nat,
      goBase64Decode b = .ok bs → t.data.length ≠ 2 →
      ∃ e : GoErr,
        ParseSpecialKeys fd (.vD [("$binary", .vStr b), ("$type", .vStr t)]) = .error e) ∧
    (∀ fd : String → Except GoErr (Int × Int), ∀ b : String, ∀ bs : List Nat,
      goBase64Decode b = .ok bs →
      ParseSpecialKeys fd (.vD [("$binary", .vStr b), ("$type", .vStr "00")]) =
        .ok (.vBinary 0 bs)) ∧
    (∀ fd : String → Except GoErr (Int × Int),
      ParseSpecialKeys fd (.vD [("$binary", .vStr "AQID"), ("$type", .vStr "00")]) =
          .ok (.vBinary 0 [1, 2, 3]) ∧
      ParseSpecialKeys fd (.vD [("$binary", .vStr "!!!!"), ("$type", .vStr "00")]) =
          .error b64CorruptErr) := by
  have herr : ∀ fd b t e, goBase64Decode b = .error e →
      ParseSpecialKeys fd (.vD [("$binary", .vStr b), ("$type", .vStr t)]) = .error e := by
    intro fd b t e h
    rw [psk_binary_type]
    simp [handleBinary, h]
  have hok : ∀ fd b t bs st, goBase64Decode b = .ok bs → goHexDecode t.data = .ok [st] →
      ParseSpecialKeys fd (.vD [("$binary", .vStr b), ("$type", .vStr t)]) =
        .ok (.vBinary st bs) := by
    intro fd b t bs st hb ht
    rw [psk_binary_type]
    simp [handleBinary, hb, lookupKV, ht]
  refine ⟨herr, hok, ?_, ?_, ?_⟩
  · intro fd b t bs hb hlen
    cases ht : goHexDecode t.data with
    | error e =>
      refine ⟨e, ?_⟩
      rw [psk_binary_type]
      simp [handleBinary, hb, lookupKV, ht]
    | ok kind =>
      have h2 := goHexDecode_length t.data kind ht
      have hk : kind.length ≠ 1 := by omega
      refine ⟨"expected single byte (as hexadecimal string) for $type field", ?_⟩
      rw [psk_binary_type]
      simp [handleBinary, hb, lookupKV, ht, hk]
  · intro fd b bs hb
    exact hok fd b "00" bs 0 hb rfl
  · intro fd
    exact ⟨hok fd "AQID" "00" [1, 2, 3] 0 rfl rfl, herr fd "!!!!" "00" b64CorruptErr rfl⟩

/-- Witness for C8: "AQID" base64-decodes to bytes 1,2,3 and subtype "00"
decodes to byte 0. -/
theorem binary_subtype_validation_witness :
    ParseSpecialKeys (fun _ => .error "e") (.vD [("$binary", .vStr "AQID"), ("$type", .vStr "00")]) =
      .ok (.vBinary 0 [1, 2, 3]) :=
  binary_subtype_validation.2.1 (fun _ => .error "e") "AQID" "00" [1, 2, 3] 0 rfl rfl

theorem underscoreScan_of_not_mem (hex : Bool) :
    ∀ (l : List Char) (saw : Char), '_' ∉ l → saw ≠ '_' → underscoreScan hex l saw = true := by
  intro l
  induction l with
  | nil =>
    intro saw _ h2
    simp [underscoreScan, h2]
  | cons c rest ih =>
    intro saw h1 h2
    have hc : c ≠ '_' := fun hc => h1 (hc ▸ List.mem_cons_self _ _)
    have hr : '_' ∉ rest := fun hr => h1 (List.mem_cons_of_mem _ hr)
    rw [underscoreScan]
    by_cases hd : ('0' ≤ c ∧ c ≤ '9') ∨ (hex ∧ 'a' ≤ c ∧ c ≤ 'f') ∨ (hex ∧ 'A' ≤ c ∧ c ≤ 'F')
    · rw [if_pos hd]
      exact ih '0' hr (by decide)
    · rw [if_neg hd, if_neg hc, if_neg h2]
      exact ih '!' hr (by decide)

theorem underscoreOK_of_not_mem : ∀ s : List Char, '_' ∉ s → underscoreOK s = true := by
  intro s h
  rw [underscoreOK.eq_def]
  rcases s with _ | ⟨c, rest⟩
  · simp
    exact underscoreScan_of_not_mem false [] '^' (by simp) (by decide)
  · have hc : c ≠ '_' := fun hc => h (hc ▸ List.mem_cons_self _ _)
    have hr : '_' ∉ rest := fun hr => h (List.mem_cons_of_mem _ hr)
    by_cases hsg : c = '-' ∨ c = '+'
    · simp only [hsg, if_true]
      rcases rest with _ | ⟨c0, rest1⟩
      · exact underscoreScan_of_not_mem false [] '^' (by simp) (by decide)
      · rcases rest1 with _ | ⟨c1, rest2⟩
        · exact underscoreScan_of_not_mem false [c0] '^' hr (by decide)
        · have h2 : '_' ∉ rest2 := fun hx => hr (by simp [hx])
          dsimp only
          split_ifs with hp
          · exact underscoreScan_of_not_mem _ rest2 '0' h2 (by decide)
          · exact underscoreScan_of_not_mem false (c0 :: c1 :: rest2) '^' hr (by decide)
    · simp only [hsg, if_false]
      rcases rest with _ | ⟨c1, rest2⟩
      · exact underscoreScan_of_not_mem false [c] '^' h (by decide)
      · have h2 : '_' ∉ rest2 := fun hx => hr (by simp [hx])
        dsimp only
        split_ifs with hp
        · exact underscoreScan_of_not_mem _ rest2 '0' h2 (by decide)
        · exact underscoreScan_of_not_mem false (c :: c1 :: rest2) '^' h (by decide)

theorem digitsFrom_ge (base : Nat) (hb : 1 ≤ base) :
    ∀ (l : List Char) (n : Nat), n ≤ digitsFrom base n l := by
  intro l
  induction l with
  | nil => intro n; simp [digitsFrom]
  | cons c rest ih =>
    intro n
    have h1 : n ≤ n * base + (digitVal c).getD 0 := by
      have := Nat.le_mul_of_pos_right n hb
      omega
    calc n ≤ n * base + (digitVal c).getD 0 := h1
    _ ≤ digitsFrom base (n * base + (digitVal c).getD 0) rest := ih _
    _ = digitsFrom base n (c :: rest) := rfl

theorem goDigitLoop_ok (base : Nat) (hb : 2 ≤ base) (base0 : Bool) (maxVal : Nat)
    (hmax : maxVal ≤ 2 ^ 64 - 1) :
    ∀ (l : List Char) (n : Nat),
    (∀ c ∈ l, ∃ d, digitVal c = some d ∧ d < base) →
    digitsFrom base n l ≤ maxVal →
    goDigitLoop base base0 maxVal l n = .ok (digitsFrom base n l) := by
  intro l
  induction l with
  | nil => intro n _ _; simp [goDigitLoop, digitsFrom]
  | cons c rest ih =>
    intro n hdig hle
    obtain ⟨d, hd, hdb⟩ := hdig c (List.mem_cons_self _ _)
    have hcu : c ≠ '_' := by
      intro hc
      rw [hc] at hd
      simp [digitVal, lowerChar] at hd
    have hstep : digitsFrom base n (c :: rest) = digitsFrom base (n * base + d) rest := by
      simp [digitsFrom, hd]
    have hnd : n * base + d ≤ maxVal := by
      have := digitsFrom_ge base (by omega) rest (n * base + d)
      rw [hstep] at hle
      omega
    have hcut : ¬ ((2 ^ 64 - 1) / base + 1 ≤ n) := by
      have hmul : n * base ≤ 2 ^ 64 - 1 := by omega
      have := (Nat.le_div_iff_mul_le (by omega : 0 < base)).mpr hmul
      omega
    rw [goDigitLoop]
    simp only [hcu, and_false, if_false, hd]
    rw [if_neg (by omega), if_neg hcut, if_neg (by omega)]
    rw [hstep]
    exact ih (n * base + d) (fun c hc => hdig c (List.mem_cons_of_mem _ hc)) (hstep ▸ hle)

theorem digitVal_decimal {x : Char} (h1 : '0' ≤ x) (h2 : x ≤ '9') :
    digitVal x = some (x.toNat - 48) ∧ x.toNat - 48 < 10 := by
  have h1' : 48 ≤ x.toNat := by simpa [Char.le_def] using h1
  have h2' : x.toNat ≤ 57 := by simpa [Char.le_def] using h2
  refine ⟨by simp [digitVal, h1, h2], by omega⟩

theorem digitVal_octal {x : Char} (h1 : '0' ≤ x) (h2 : x ≤ '7') :
    digitVal x = some (x.toNat - 48) ∧ x.toNat - 48 < 8 := by
  have h1' : 48 ≤ x.toNat := by simpa [Char.le_def] using h1
  have h2' : x.toNat ≤ 55 := by simpa [Char.le_def] using h2
  have h9 : x ≤ '9' := le_trans h2 (by decide)
  refine ⟨by simp [digitVal, h1, h9], by omega⟩

theorem digitVal_hex {x : Char}
    (h : ('0' ≤ x ∧ x ≤ '9') ∨ ('a' ≤ x ∧ x ≤ 'f') ∨ ('A' ≤ x ∧ x ≤ 'F')) :
    ∃ d, digitVal x = some d ∧ d < 16 := by
  rcases h with ⟨h1, h2⟩ | ⟨h1, h2⟩ | ⟨h1, h2⟩
  · obtain ⟨hd, hb⟩ := digitVal_decimal h1 h2
    exact ⟨_, hd, by omega⟩
  · have h1' : 97 ≤ x.toNat := by simpa [Char.le_def] using h1
    have h2' : x.toNat ≤ 102 := by simpa [Char.le_def] using h2
    have hne : ¬ ('0' ≤ x ∧ x ≤ '9') := by
      rintro ⟨_, hx⟩
      have : x.toNat ≤ 57 := by simpa [Char.le_def] using hx
      omega
    obtain ⟨t, ht⟩ : ∃ t, x.toNat = t := ⟨_, rfl⟩
    rw [ht] at h1' h2'
    simp only [digitVal, lowerChar, if_neg hne, ht]
    interval_cases t <;> decide
  · have h1' : 65 ≤ x.toNat := by simpa [Char.le_def] using h1
    have h2' : x.toNat ≤ 70 := by simpa [Char.le_def] using h2
    have hne : ¬ ('0' ≤ x ∧ x ≤ '9') := by
      rintro ⟨_, hx⟩
      have : x.toNat ≤ 57 := by simpa [Char.le_def] using hx
      omega
    obtain ⟨t, ht⟩ : ∃ t, x.toNat = t := ⟨_, rfl⟩
    rw [ht] at h1' h2'
    simp only [digitVal, lowerChar, if_neg hne, ht]
    interval_cases t <;> decide

theorem not_mem_underscore_of_digits {l : List Char} (h : ∀ x ∈ l, '0' ≤ x ∧ x ≤ '9') :
    '_' ∉ l := by
  intro hm
  obtain ⟨h1, h2⟩ := h _ hm
  exact absurd h2 (by decide)


theorem detectBase_not_zero {c : Char} {rest : List Char} (hc0 : c ≠ '0') :
    detectBase (c :: rest) = (10, c :: rest) := by
  rw [detectBase.eq_def]
  split
  next heq =>
    rw [List.cons.injEq] at heq
    exact absurd heq.1 hc0
  next => rfl

theorem detectBase_hex {x : Char} {h : List Char} (hx : lowerChar x = 120) (hne : h ≠ []) :
    detectBase ('0' :: x :: h) = (16, h) := by
  simp [detectBase, hx, hne]

theorem detectBase_octal {c2 : Char} {rest2 : List Char}
    (h1 : '0' ≤ c2) (h2 : c2 ≤ '7') :
    detectBase ('0' :: c2 :: rest2) = (8, c2 :: rest2) := by
  have h1' : 48 ≤ c2.toNat := by simpa [Char.le_def] using h1
  have h2' : c2.toNat ≤ 55 := by simpa [Char.le_def] using h2
  have hl : lowerChar c2 = c2.toNat := by
    obtain ⟨t, ht⟩ : ∃ t, c2.toNat = t := ⟨_, rfl⟩
    rw [ht] at h1' h2'
    simp only [lowerChar, ht]
    interval_cases t <;> decide
  have h98 : c2.toNat ≠ 98 := by omega
  have h111 : c2.toNat ≠ 111 := by omega
  have h120 : c2.toNat ≠ 120 := by omega
  simp [detectBase, hl, h98, h111, h120]

theorem goParseUint_decimal (c : Char) (rest : List Char) (bitSize : Nat) (hbs : bitSize ≤ 64)
    (hc0 : c ≠ '0') (hdig : ∀ x ∈ c :: rest, '0' ≤ x ∧ x ≤ '9')
    (hle : digitsToNat 10 (c :: rest) ≤ 2 ^ bitSize - 1) :
    goParseUint (c :: rest) 0 bitSize = .ok (digitsToNat 10 (c :: rest)) := by
  have hmax : (2 ^ bitSize - 1 : Nat) ≤ 2 ^ 64 - 1 := by
    have := Nat.pow_le_pow_right (by omega : 1 ≤ 2) hbs
    omega
  have hvalid : ∀ x ∈ c :: rest, ∃ d, digitVal x = some d ∧ d < 10 := by
    intro x hx
    obtain ⟨h1, h2⟩ := hdig x hx
    obtain ⟨hd, hb⟩ := digitVal_decimal h1 h2
    exact ⟨_, hd, hb⟩
  have hloop := goDigitLoop_ok 10 (by omega) true (2 ^ bitSize - 1) hmax (c :: rest) 0 hvalid hle
  have hund := underscoreOK_of_not_mem (c :: rest) (not_mem_underscore_of_digits hdig)
  rw [goParseUint.eq_def]
  simp only [List.isEmpty_cons, Bool.false_eq_true, if_false, ne_eq, eq_self_iff_true,
    not_true_eq_false, decide_True, detectBase_not_zero hc0]
  rw [hloop]
  simp [hund, digitsToNat]

theorem goParseUint_hex (x : Char) (h : List Char) (bitSize : Nat) (hbs : bitSize ≤ 64)
    (hx : lowerChar x = 120) (hne : h ≠ [])
    (hdig : ∀ y ∈ h, ('0' ≤ y ∧ y ≤ '9') ∨ ('a' ≤ y ∧ y ≤ 'f') ∨ ('A' ≤ y ∧ y ≤ 'F'))
    (hle : digitsToNat 16 h ≤ 2 ^ bitSize - 1) :
    goParseUint ('0' :: x :: h) 0 bitSize = .ok (digitsToNat 16 h) := by
  have hmax : (2 ^ bitSize - 1 : Nat) ≤ 2 ^ 64 - 1 := by
    have := Nat.pow_le_pow_right (by omega : 1 ≤ 2) hbs
    omega
  have hvalid : ∀ y ∈ h, ∃ d, digitVal y = some d ∧ d < 16 := fun y hy => digitVal_hex (hdig y hy)
  have hloop := goDigitLoop_ok 16 (by omega) true (2 ^ bitSize - 1) hmax h 0 hvalid hle
  have hnm : '_' ∉ ('0' :: x :: h) := by
    intro hm
    simp only [List.mem_cons] at hm
    rcases hm with h1 | h1 | h1
    · exact absurd h1 (by decide)
    · rw [← h1] at hx
      exact absurd hx (by decide)
    · rcases hdig _ h1 with ⟨_, h2⟩ | ⟨h2, _⟩ | ⟨_, h2⟩ <;> exact absurd h2 (by decide)
  have hund := underscoreOK_of_not_mem _ hnm
  rw [goParseUint.eq_def]
  simp only [List.isEmpty_cons, Bool.false_eq_true, if_false, ne_eq, eq_self_iff_true,
    not_true_eq_false, decide_True, detectBase_hex hx hne]
  rw [hloop]
  simp [hund, digitsToNat]

theorem goParseUint_octal (c2 : Char) (rest2 : List Char) (bitSize : Nat) (hbs : bitSize ≤ 64)
    (hdig : ∀ y ∈ c2 :: rest2, '0' ≤ y ∧ y ≤ '7')
    (hle : digitsToNat 8 (c2 :: rest2) ≤ 2 ^ bitSize - 1) :
    goParseUint ('0' :: c2 :: rest2) 0 bitSize = .ok (digitsToNat 8 (c2 :: rest2)) := by
  have hmax : (2 ^ bitSize - 1 : Nat) ≤ 2 ^ 64 - 1 := by
    have := Nat.pow_le_pow_right (by omega : 1 ≤ 2) hbs
    omega
  have hvalid : ∀ y ∈ c2 :: rest2, ∃ d, digitVal y = some d ∧ d < 8 := by
    intro y hy
    obtain ⟨h1, h2⟩ := hdig y hy
    obtain ⟨hd, hb⟩ := digitVal_octal h1 h2
    exact ⟨_, hd, hb⟩
  have hloop := goDigitLoop_ok 8 (by omega) true (2 ^ bitSize - 1) hmax (c2 :: rest2) 0 hvalid hle
  have hnm : '_' ∉ ('0' :: c2 :: rest2) := by
    intro hm
    simp only [List.mem_cons] at hm
    rcases hm with h1 | h1 | h1
    · exact absurd h1 (by decide)
    · obtain ⟨_, h2⟩ := hdig c2 (by simp)
      rw [← h1] at h2
      exact absurd h2 (by decide)
    · obtain ⟨_, h2⟩ := hdig _ (List.mem_cons_of_mem _ h1)
      exact absurd h2 (by decide)
  have hund := underscoreOK_of_not_mem _ hnm
  rw [goParseUint.eq_def]
  simp only [List.isEmpty_cons, Bool.false_eq_true, if_false, ne_eq, eq_self_iff_true,
    not_true_eq_false, decide_True, detectBase_octal (hdig c2 (by simp)).1 (hdig c2 (by simp)).2]
  rw [hloop]
  simp [hund, digitsToNat]

theorem goParseInt_of_uint (c : Char) (rest : List Char) (bitSize : Nat)
    (hplus : c ≠ '+') (hminus : c ≠ '-') (n : Nat)
    (hn : goParseUint (c :: rest) 0 bitSize = .ok n) (hlt : n < 2 ^ (bitSize - 1)) :
    goParseInt (c :: rest) 0 bitSize = .ok (n : Int) := by
  rw [goParseInt]
  simp [hplus, hminus, hn, Nat.not_le.mpr hlt]

theorem goParseInt_neg (rest : List Char) (bitSize : Nat) (n : Nat)
    (hn : goParseUint rest 0 bitSize = .ok n) (hle : n ≤ 2 ^ (bitSize - 1)) :
    goParseInt ('-' :: rest) 0 bitSize = .ok (-(n : Int)) := by
  rw [goParseInt]
  simp [hn, Nat.not_lt.mpr hle]

theorem goParseInt_ok_bounds (s : List Char) (bitSize : Nat) (n : Int)
    (h : goParseInt s 0 bitSize = .ok n) :
    -(2 ^ (bitSize - 1) : Int) ≤ n ∧ n < 2 ^ (bitSize - 1) := by
  rcases s with _ | ⟨c, rest⟩
  · simp [goParseInt] at h
  · rw [goParseInt] at h
    rcases hu : goParseUint (if c = '+' ∨ c = '-' then rest else c :: rest) 0 bitSize with e | un
    · simp [hu] at h
    · simp only [hu] at h
      by_cases hneg : c = '-'
      · simp only [hneg, not_true_eq_false, false_and, if_false, true_and] at h
        split_ifs at h with h1
        rw [Except.ok.injEq] at h
        subst h
        have hun : un ≤ 2 ^ (bitSize - 1) := Nat.not_lt.mp h1
        have hcast := (Nat.cast_le (α := Int)).mpr hun
        push_cast at hcast
        have h0 : (0 : Int) ≤ (un : Int) := by positivity
        have hp : (0 : Int) < 2 ^ (bitSize - 1) := by positivity
        exact ⟨by omega, by omega⟩
      · simp only [hneg, not_false_eq_true, true_and, false_and, if_false] at h
        split_ifs at h with h1
        rw [Except.ok.injEq] at h
        subst h
        have hun : un < 2 ^ (bitSize - 1) := Nat.not_le.mp h1
        have hcast := (Nat.cast_lt (α := Int)).mpr hun
        push_cast at hcast
        have h0 : (0 : Int) ≤ (un : Int) := by positivity
        have hp : (0 : Int) < 2 ^ (bitSize - 1) := by positivity
        exact ⟨by omega, by omega⟩

/-- C6: `$numberLong` (resp. `$numberInt`) requires a string payload, parsed
by `strconv.ParseInt` with base auto-detected from the literal's prefix at
width 64 (resp. 32) bits: plain decimal, `0x`-prefixed hexadecimal and
leading-zero octal all parse to their positional value; a non-string payload
is a fatal error, and every successfully parsed value lies within the target
width (overflow is a fatal range error, e.g. at 2^63 resp. 2^31). -/
theorem numberlong_numberint_parsing :
    (∀ fd : String → Except GoErr (Int × Int), ∀ s : String,
      ParseSpecialKeys fd (.vD [("$numberLong", .vStr s)]) =
        (goParseInt s.data 0 64).map .vInt64) ∧
    (∀ fd : String → Except GoErr (Int × Int), ∀ s : String,
      ParseSpecialKeys fd (.vD [("$numberInt", .vStr s)]) =
        (goParseInt s.data 0 32).map .vInt32) ∧
    (∀ fd : String → Except GoErr (Int × Int), ∀ v : Value, (∀ s, v ≠ .vStr s) →
      ParseSpecialKeys fd (.vD [("$numberLong", v)]) =
        .error "expected $numberLong field to have string value") ∧
    (∀ fd : String → Except GoErr (Int × Int), ∀ v : Value, (∀ s, v ≠ .vStr s) →
      ParseSpecialKeys fd (.vD [("$numberInt", v)]) =
        .error "expected $numberInt field to have string value") ∧
    (∀ (c : Char) (rest : List Char) (bitSize : Nat), bitSize ≤ 64 →
      c ≠ '0' → c ≠ '+' → c ≠ '-' → (∀ x ∈ c :: rest, '0' ≤ x ∧ x ≤ '9') →
      digitsToNat 10 (c :: rest) < 2 ^ (bitSize - 1) →
      goParseInt (c :: rest) 0 bitSize = .ok (digitsToNat 10 (c :: rest))) ∧
    (∀ (x : Char) (h : List Char) (bitSize : Nat), bitSize ≤ 64 →
      lowerChar x = 120 → h ≠ [] →
      (∀ y ∈ h, ('0' ≤ y ∧ y ≤ '9') ∨ ('a' ≤ y ∧ y ≤ 'f') ∨ ('A' ≤ y ∧ y ≤ 'F')) →
      digitsToNat 16 h < 2 ^ (bitSize - 1) →
      goParseInt ('0' :: x :: h) 0 bitSize = .ok (digitsToNat 16 h)) ∧
    (∀ (c2 : Char) (rest2 : List Char) (bitSize : Nat), bitSize ≤ 64 →
      (∀ y ∈ c2 :: rest2, '0' ≤ y ∧ y ≤ '7') →
      digitsToNat 8 (c2 :: rest2) < 2 ^ (bitSize - 1) →
      goParseInt ('0' :: c2 :: rest2) 0 bitSize = .ok (digitsToNat 8 (c2 :: rest2))) ∧
    (∀ (s : List Char) (bitSize : Nat) (n : Int),
      goParseInt s 0 bitSize = .ok n →
      -(2 ^ (bitSize - 1) : Int) ≤ n ∧ n < 2 ^ (bitSize - 1)) ∧
    (goParseIntStr "9223372036854775808" 64 = .error strconvRangeErr ∧
      goParseIntStr "2147483648" 32 = .error strconvRangeErr ∧
      goParseIntStr "-9223372036854775808" 64 = .ok (-9223372036854775808)) := by
  have hlt : ∀ (bitSize : Nat) (v : Nat), v < 2 ^ (bitSize - 1) → v ≤ 2 ^ bitSize - 1 := by
    intro bitSize v hv
    have h1 : (2 : Nat) ^ (bitSize - 1) ≤ 2 ^ bitSize :=
      Nat.pow_le_pow_right (by omega) (by omega)
    omega
  refine ⟨?_, ?_, ?_, ?_, ?_, ?_, ?_, goParseInt_ok_bounds, by rfl, by rfl, by rfl⟩
  · intro fd s
    rw [psk_numberLong]
    simp [handleNumberLong, parseNumberLongField]
  · intro fd s
    rw [psk_numberInt]
    simp [handleNumberInt]
  · intro fd v h
    rw [psk_numberLong]
    cases v <;> first
      | exact absurd rfl (h _)
      | simp [handleNumberLong, parseNumberLongField, Except.map]
  · intro fd v h
    rw [psk_numberInt]
    cases v <;> first
      | exact absurd rfl (h _)
      | simp [handleNumberInt]
  · intro c rest bitSize hbs hc0 hplus hminus hdig hval
    exact goParseInt_of_uint c rest bitSize hplus hminus _
      (goParseUint_decimal c rest bitSize hbs hc0 hdig (hlt _ _ hval)) hval
  · intro x h bitSize hbs hx hne hdig hval
    exact goParseInt_of_uint '0' (x :: h) bitSize (by decide) (by decide) _
      (goParseUint_hex x h bitSize hbs hx hne hdig (hlt _ _ hval)) hval
  · intro c2 rest2 bitSize hbs hdig hval
    exact goParseInt_of_uint '0' (c2 :: rest2) bitSize (by decide) (by decide) _
      (goParseUint_octal c2 rest2 bitSize hbs hdig (hlt _ _ hval)) hval

/-- Witness for C6: the hexadecimal literal 0x10 parses to 16 as a
`$numberLong`. -/
theorem numberlong_numberint_parsing_witness :
    ParseSpecialKeys (fun _ => .error "e") (.vD [("$numberLong", .vStr "0x10")]) =
      .ok (.vInt64 16) := by
  rw [numberlong_numberint_parsing.1 (fun _ => .error "e") "0x10"]
  rw [show ("0x10".data : List Char) = '0' :: 'x' :: ['1', '0'] from rfl]
  rw [numberlong_numberint_parsing.2.2.2.2.2.1 'x' ['1', '0'] 64 (by omega) (by decide)
    (by decide) (by decide) (by decide)]
  rfl

/-- `time.Unix` normalizes its arguments to the same instant with nanoseconds
in `[0, 1e9)`: shared helper for the `$date` claim. -/
theorem timeUnix_instant (sec nsec : Int) :
    ∃ s2 n2, timeUnix sec nsec = .vTime s2 n2 ∧
      s2 * 1000000000 + n2 = sec * 1000000000 + nsec ∧ 0 ≤ n2 ∧ n2 < 1000000000 := by
  have hrw : nsec - nsec.tdiv 1000000000 * 1000000000 = nsec.tmod 1000000000 := by
    rw [Int.tmod_def]; ring
  have hup : nsec.tmod 1000000000 < 1000000000 :=
    Int.tmod_lt_of_pos nsec (by omega)
  have hneg : (-nsec).tmod 1000000000 = -(nsec.tmod 1000000000) := by
    simp [Int.tmod_def, Int.neg_tdiv]; ring
  have hlo : -1000000000 < nsec.tmod 1000000000 := by
    have := Int.tmod_lt_of_pos (-nsec) (by omega : (0:Int) < 1000000000)
    omega
  rw [timeUnix]
  dsimp only
  split_ifs with h1 h2
  · refine ⟨sec + nsec.tdiv 1000000000 - 1, nsec - nsec.tdiv 1000000000 * 1000000000 + 1000000000,
      rfl, by ring, by omega, by omega⟩
  · refine ⟨sec + nsec.tdiv 1000000000, nsec - nsec.tdiv 1000000000 * 1000000000,
      rfl, by ring, by omega, by omega⟩
  · push_neg at h1
    exact ⟨sec, nsec, rfl, rfl, h1.1, h1.2⟩

/-- C2: a `$date` carrying epoch milliseconds `n` (as an int64 or int32
literal, an integral float64, a `json.Number`, or a nested `$numberLong`
wrapper) decodes to the timestamp `time.Unix(n div 1000, (n mod 1000) *
1_000_000)` with truncating division (`Int.tdiv`/`Int.tmod`), so `-1500`
yields the timestamp written `(-1 s, -500_000_000 ns)`, `-1` yields
`(0 s, -1_000_000 ns)`, `0 → (0 s, 0 ns)`, `1000 → (1 s, 0 ns)` and
`1500 → (1 s, 500_000_000 ns)`; `time.Unix` normalization preserves the
instant, so each such pair denotes exactly `n` milliseconds from the epoch. -/
theorem date_epoch_millis_truncating :
    (∀ fd : String → Except GoErr (Int × Int), ∀ n : Int,
      ParseSpecialKeys fd (.vD [("$date", .vInt64 n)]) =
        .ok (timeUnix (Int.tdiv n 1000) (Int.tmod n 1000 * 1000000))) ∧
    (∀ fd : String → Except GoErr (Int × Int), ∀ n : Int,
      ParseSpecialKeys fd (.vD [("$date", .vInt32 n)]) =
        .ok (timeUnix (Int.tdiv n 1000) (Int.tmod n 1000 * 1000000))) ∧
    (∀ fd : String → Except GoErr (Int × Int), ∀ n : Int,
      ParseSpecialKeys fd (.vD [("$date", .vFloat64 n)]) =
        .ok (timeUnix (Int.tdiv n 1000) (Int.tmod n 1000 * 1000000))) ∧
    (∀ fd : String → Except GoErr (Int × Int), ∀ s : String, ∀ n : Int,
      goParseInt s.data 10 64 = .ok n →
      ParseSpecialKeys fd (.vD [("$date", .vJsonNumber s)]) =
        .ok (timeUnix (Int.tdiv n 1000) (Int.tmod n 1000 * 1000000))) ∧
    (∀ fd : String → Except GoErr (Int × Int), ∀ s : String, ∀ n : Int,
      goParseInt s.data 0 64 = .ok n →
      ParseSpecialKeys fd (.vD [("$date", .vD [("$numberLong", .vStr s)])]) =
        .ok (timeUnix (Int.tdiv n 1000) (Int.tmod n 1000 * 1000000))) ∧
    (∀ fd : String → Except GoErr (Int × Int), ∀ s : String, ∀ n : Int,
      goParseInt s.data 0 64 = .ok n →
      ParseSpecialKeys fd (.vD [("$date", .vMap [("$numberLong", .vStr s)])]) =
        .ok (timeUnix (Int.tdiv n 1000) (Int.tmod n 1000 * 1000000))) ∧
    (Int.tdiv (-1500) 1000 = -1 ∧ Int.tmod (-1500) 1000 = -500 ∧
      Int.tdiv (-1) 1000 = 0 ∧ Int.tmod (-1) 1000 = -1) ∧
    (∀ fd : String → Except GoErr (Int × Int),
      ParseSpecialKeys fd (.vD [("$date", .vInt64 (-1500))]) =
          .ok (timeUnix (-1) (-500000000)) ∧
      ParseSpecialKeys fd (.vD [("$date", .vInt64 (-1))]) =
          .ok (timeUnix 0 (-1000000)) ∧
      ParseSpecialKeys fd (.vD [("$date", .vInt64 0)]) = .ok (timeUnix 0 0) ∧
      ParseSpecialKeys fd (.vD [("$date", .vInt64 1000)]) = .ok (timeUnix 1 0) ∧
      ParseSpecialKeys fd (.vD [("$date", .vInt64 1500)]) =
          .ok (timeUnix 1 500000000)) ∧
    (∀ n : Int, ∃ s2 n2,
      timeUnix (Int.tdiv n 1000) (Int.tmod n 1000 * 1000000) = .vTime s2 n2 ∧
      s2 * 1000000000 + n2 = n * 1000000 ∧ 0 ≤ n2 ∧ n2 < 1000000000) := by
  have hint : ∀ fd n, ParseSpecialKeys fd (.vD [("$date", .vInt64 n)]) =
      .ok (timeUnix (Int.tdiv n 1000) (Int.tmod n 1000 * 1000000)) := by
    intro fd n
    rw [psk_date]
    simp [handleDate]
  refine ⟨hint, ?_, ?_, ?_, ?_, ?_, ⟨by decide, by decide, by decide, by decide⟩, ?_, ?_⟩
  · intro fd n
    rw [psk_date]
    simp [handleDate]
  · intro fd n
    rw [psk_date]
    simp [handleDate]
  · intro fd s n h
    rw [psk_date]
    simp [handleDate, h, Except.map]
  · intro fd s n h
    rw [psk_date]
    simp [handleDate, dMap, insertKV, lookupKV, parseNumberLongField, h, Except.map]
  · intro fd s n h
    rw [psk_date]
    simp [handleDate, lookupKV, parseNumberLongField, h, Except.map]
  · intro fd
    refine ⟨hint fd (-1500), hint fd (-1), hint fd 0, hint fd 1000, hint fd 1500⟩
  · intro n
    obtain ⟨s2, n2, heq, hsum, h0, h9⟩ :=
      timeUnix_instant (Int.tdiv n 1000) (Int.tmod n 1000 * 1000000)
    refine ⟨s2, n2, heq, ?_, h0, h9⟩
    have := Int.tdiv_add_tmod n 1000
    calc s2 * 1000000000 + n2
        = Int.tdiv n 1000 * 1000000000 + Int.tmod n 1000 * 1000000 := hsum
      _ = n * 1000000 := by
          have h2 : 1000 * Int.tdiv n 1000 + Int.tmod n 1000 = n := Int.tdiv_add_tmod n 1000
          nlinarith [h2]

/-- Witness for C2: a nested `$numberLong` wrapper carrying -1500 epoch
milliseconds decodes to the timestamp written (-1 s, -500,000,000 ns). -/
theorem date_epoch_millis_truncating_witness :
    ParseSpecialKeys (fun _ => .error "e")
        (.vD [("$date", .vD [("$numberLong", .vStr "-1500")])]) =
      .ok (timeUnix (-1) (-500000000)) := by
  rw [date_epoch_millis_truncating.2.2.2.2.1 (fun _ => .error "e") "-1500" (-1500) (by rfl)]
  have h1 : ((-1500 : Int)).tdiv 1000 = -1 := by decide
  have h2 : ((-1500 : Int)).tmod 1000 * 1000000 = -500000000 := by decide
  rw [h1, h2]

/-- The metadata loop stops at the terminator from any accumulator state:
shared helper. -/
theorem gcmLoop_stops_at_terminator (rd : Reader)
    (parseExt : String → Except GoErr (List (String × Value)))
    (stream : List Nat) (acc : List (List (String × Value))) (diags : List String)
    (ht : stream.take 4 = terminatorBytes) :
    getCollectionMetadataLoop rd parseExt stream acc diags = ⟨some acc, none, diags⟩ := by
  have hlen : 4 ≤ stream.length := by
    have := congrArg List.length ht
    simp [List.length_take, terminatorBytes] at this
    omega
  rw [getCollectionMetadataLoop]
  simp [ht, Nat.not_lt.mpr hlen]

/-- C1 (amended): only the string-parse-failure case of the `metadata` field
is the non-fatal warning path — the diagnostic is emitted, the original
string value retained, the document appended, and the loop continues; a
`metadata` field whose value is not a string instead makes
`getCollectionMetadata` abort at once without appending the document, and
because the intended type-mismatch error wraps a nil error, it returns a nil
document slice together with a nil error and emits nothing. -/
theorem metadata_field_handling :
    (∀ parseExt : String → Except GoErr (List (String × Value)),
      ∀ (s : String) (e : GoErr) (rest : List (String × Value)), parseExt s = .error e →
      fixupMetadata parseExt (("metadata", Value.vStr s) :: rest) =
        ((fixupMetadata parseExt rest).1.map (fun t => ("metadata", Value.vStr s) :: t),
          ("failed to parse collection metadata string: " ++ e) ::
            (fixupMetadata parseExt rest).2)) ∧
    (∀ parseExt : String → Except GoErr (List (String × Value)),
      ∀ (s : String) (d : List (String × Value)) (rest : List (String × Value)),
      parseExt s = .ok d →
      fixupMetadata parseExt (("metadata", Value.vStr s) :: rest) =
        ((fixupMetadata parseExt rest).1.map (fun t => ("metadata", Value.vD d) :: t),
          (fixupMetadata parseExt rest).2)) ∧
    (∀ parseExt : String → Except GoErr (List (String × Value)),
      ∀ (v : Value) (rest : List (String × Value)), (∀ s, v ≠ .vStr s) →
      fixupMetadata parseExt (("metadata", v) :: rest) = (none, [])) ∧
    (∀ rd : Reader, ∀ parseExt : String → Except GoErr (List (String × Value)),
      ∀ (stream : List Nat) (mdDoc : List (String × Value)) (rest : List Nat)
        (doc2 : List (String × Value)) (ds : List String)
        (acc : List (List (String × Value))) (diags : List String),
      ¬ stream.length < 4 → stream.take 4 ≠ terminatorBytes →
      rd.read stream = .ok (mdDoc, rest) →
      fixupMetadata parseExt mdDoc = (some doc2, ds) →
      getCollectionMetadataLoop rd parseExt stream acc diags =
        getCollectionMetadataLoop rd parseExt rest (acc ++ [doc2]) (diags ++ ds)) ∧
    (∀ rd : Reader, ∀ parseExt : String → Except GoErr (List (String × Value)),
      ∀ (stream : List Nat) (mdDoc : List (String × Value)) (rest : List Nat)
        (ds : List String) (acc : List (List (String × Value))) (diags : List String),
      ¬ stream.length < 4 → stream.take 4 ≠ terminatorBytes →
      rd.read stream = .ok (mdDoc, rest) →
      fixupMetadata parseExt mdDoc = (none, ds) →
      getCollectionMetadataLoop rd parseExt stream acc diags = ⟨none, none, diags ++ ds⟩) := by
  refine ⟨?_, ?_, ?_, ?_, ?_⟩
  · intro parseExt s e rest h
    simp [fixupMetadata, h]
  · intro parseExt s d rest h
    simp [fixupMetadata, h]
  · intro parseExt v rest h
    cases v <;> first
      | exact absurd rfl (h _)
      | simp [fixupMetadata]
  · intro rd parseExt stream mdDoc rest doc2 ds acc diags h4 hterm hread hfix
    rw [getCollectionMetadataLoop, if_neg h4, if_neg hterm]
    split
    next e heq => simp [hread] at heq
    next md2 rs2 heq =>
      simp [hread] at heq
      obtain ⟨h1, h2⟩ := heq
      subst h1
      subst h2
      simp [hfix]
  · intro rd parseExt stream mdDoc rest ds acc diags h4 hterm hread hfix
    rw [getCollectionMetadataLoop, if_neg h4, if_neg hterm]
    split
    next e heq => simp [hread] at heq
    next md2 rs2 heq =>
      simp [hread] at heq
      obtain ⟨h1, h2⟩ := heq
      subst h1
      subst h2
      simp [hfix, wrapOpt]

/-- Witness for C1 (amended): an unparsable metadata string produces one
diagnostic, keeps the original string, appends the document and parsing
continues to the terminator. -/
theorem metadata_field_handling_witness :
    getCollectionMetadata (constReader [("metadata", Value.vStr "x")])
        (fun _ => .error "bad json") [0, 0, 0, 0, 0, 255, 255, 255, 255] =
      ⟨some [[("metadata", Value.vStr "x")]], none,
        ["failed to parse collection metadata string: bad json"]⟩ := by
  rw [getCollectionMetadata]
  rw [metadata_field_handling.2.2.2.1 (constReader [("metadata", Value.vStr "x")])
    (fun _ => .error "bad json") [0, 0, 0, 0, 0, 255, 255, 255, 255]
    [("metadata", Value.vStr "x")] [255, 255, 255, 255]
    [("metadata", Value.vStr "x")] ["failed to parse collection metadata string: bad json"]
    [] [] (by simp) (by decide) rfl (by rfl)]
  exact gcmLoop_stops_at_terminator _ _ _ _ _ rfl

/-- Counterexample for C1 as stated: a `metadata` field holding an int32 is
not handled as a warning — the document is not appended, no diagnostic is
emitted, and the walk stops, returning a nil slice and (because a nil error
was wrapped) a nil error. -/
theorem metadata_nonstring_counterexample :
    getCollectionMetadata (constReader [("metadata", Value.vInt32 7)])
        (fun _ => .error "boom") [0, 0, 0, 0, 0] = ⟨none, none, []⟩ ∧
    (⟨none, none, []⟩ : GCMOut).docs ≠ some [[("metadata", Value.vInt32 7)]] := by
  constructor
  · rw [getCollectionMetadata, getCollectionMetadataLoop]
    simp [constReader, fixupMetadata, wrapOpt, terminatorBytes]
  · simp

theorem keys_insertKV (m : List (String × Value)) (p : String × Value) :
    (insertKV m p).map Prod.fst =
      if p.1 ∈ m.map Prod.fst then m.map Prod.fst else m.map Prod.fst ++ [p.1] := by
  induction m with
  | nil => simp [insertKV]
  | cons r rest ih =>
    obtain ⟨rk, rv⟩ := r
    by_cases hk : rk = p.1
    · simp [insertKV, hk]
    · simp only [insertKV, if_neg hk, List.map_cons, ih]
      by_cases hm : p.1 ∈ rest.map Prod.fst
      · simp [hm, hk, Ne.symm hk]
      · simp [hm, hk, Ne.symm hk]

theorem nodup_keys_insertKV {m : List (String × Value)} (p : String × Value)
    (h : (m.map Prod.fst).Nodup) : ((insertKV m p).map Prod.fst).Nodup := by
  rw [keys_insertKV]
  by_cases hm : p.1 ∈ m.map Prod.fst
  · simpa [hm]
  · simp [hm, List.nodup_append, h]

theorem mem_keys_insertKV (m : List (String × Value)) (p : String × Value) (k : String) :
    (k ∈ (insertKV m p).map Prod.fst) ↔ (k ∈ m.map Prod.fst ∨ k = p.1) := by
  rw [keys_insertKV]
  by_cases hm : p.1 ∈ m.map Prod.fst
  · rw [if_pos hm]
    constructor
    · exact Or.inl
    · rintro (h | h)
      · exact h
      · rw [h]; exact hm
  · rw [if_neg hm]
    simp

theorem nodup_keys_foldl (l : List (String × Value)) :
    ∀ acc, ((acc.map Prod.fst).Nodup) → ((List.foldl insertKV acc l).map Prod.fst).Nodup := by
  induction l with
  | nil => intro acc h; simpa using h
  | cons x xs ih =>
    intro acc h
    exact ih _ (nodup_keys_insertKV x h)

theorem mem_keys_foldl (l : List (String × Value)) :
    ∀ acc k, (k ∈ (List.foldl insertKV acc l).map Prod.fst) ↔
      (k ∈ acc.map Prod.fst ∨ k ∈ l.map Prod.fst) := by
  induction l with
  | nil => intro acc k; simp
  | cons x xs ih =>
    intro acc k
    rw [List.foldl_cons, ih, mem_keys_insertKV]
    simp
    tauto

theorem nodup_keys_dMap (d : List (String × Value)) : ((dMap d).map Prod.fst).Nodup :=
  nodup_keys_foldl d [] (by simp)

theorem mem_keys_dMap (d : List (String × Value)) (k : String) :
    k ∈ (dMap d).map Prod.fst ↔ k ∈ d.map Prod.fst := by
  rw [dMap, mem_keys_foldl]
  simp

theorem length_dMap (d : List (String × Value)) :
    (dMap d).length = (d.map Prod.fst).toFinset.card := by
  have h1 : (dMap d).length = ((dMap d).map Prod.fst).length := by simp
  rw [h1, ← List.toFinset_card_of_nodup (nodup_keys_dMap d)]
  congr 1
  apply Finset.ext
  intro k
  simp only [List.mem_toFinset]
  exact mem_keys_dMap d k

theorem lookupKV_insertKV (m : List (String × Value)) (p : String × Value) (k : String) :
    lookupKV (insertKV m p) k = if k = p.1 then some p.2 else lookupKV m k := by
  induction m with
  | nil => simp [insertKV, lookupKV, eq_comm]
  | cons r rest ih =>
    obtain ⟨rk, rv⟩ := r
    by_cases hk : rk = p.1
    · by_cases hkk : k = rk
      · have hkp : k = p.1 := hkk.trans hk
        simp [insertKV, lookupKV, hk, hkp]
      · have hkp : ¬ k = p.1 := fun h => hkk (h.trans hk.symm)
        simp [insertKV, lookupKV, hk, hkp, Ne.symm hkp]
    · by_cases hkk : k = rk
      · have hkp : ¬ k = p.1 := by rw [hkk]; exact hk
        simp [insertKV, lookupKV, hk, hkk, hkp]
      · simp [insertKV, lookupKV, hk, Ne.symm hkk, hkk, ih]

theorem lookupKV_dMap_last (d : List (String × Value)) (k : String) :
    lookupKV (dMap d) k = lookupKV d.reverse k := by
  induction d using List.reverseRecOn with
  | nil => simp [dMap, lookupKV]
  | append_singleton xs p ih =>
    rw [dMap, List.foldl_append]
    simp only [List.foldl_cons, List.foldl_nil]
    rw [show List.foldl insertKV [] xs = dMap xs from rfl]
    rw [lookupKV_insertKV, List.reverse_append]
    simp only [List.reverse_singleton, List.singleton_append, lookupKV]
    obtain ⟨p1, p2⟩ := p
    by_cases hk : k = p1
    · simp [hk, lookupKV]
    · simp [hk, Ne.symm hk, ih, lookupKV]

theorem lookupKV_isSome_iff (m : List (String × Value)) (k : String) :
    (lookupKV m k).isSome ↔ k ∈ m.map Prod.fst := by
  induction m with
  | nil => simp [lookupKV]
  | cons r rest ih =>
    obtain ⟨rk, rv⟩ := r
    by_cases hk : rk = k
    · simp [lookupKV, hk]
    · simp [lookupKV, hk, ih, Ne.symm hk]

theorem matchSpecial_none_iff (fd : String → Except GoErr (Int × Int))
    (m : List (String × Value)) :
    matchSpecial fd m = none ↔ classifySpecial m = none := by
  rw [matchSpecial, classifySpecial]
  by_cases h1 : m.length = 1
  · simp only [h1, if_true]
    cases h01 : lookupKV m "$date" with
    | some v => simp [h01]
    | none =>
    cases h02 : lookupKV m "$code" with
    | some v => simp [h01, h02]
    | none =>
    cases h03 : lookupKV m "$oid" with
    | some v => simp [h01, h02, h03]
    | none =>
    cases h04 : lookupKV m "$numberLong" with
    | some v => simp [h01, h02, h03, h04]
    | none =>
    cases h05 : lookupKV m "$numberInt" with
    | some v => simp [h01, h02, h03, h04, h05]
    | none =>
    cases h06 : lookupKV m "$timestamp" with
    | some v => simp [h01, h02, h03, h04, h05, h06]
    | none =>
    cases h07 : lookupKV m "$numberDecimal" with
    | some v => simp [h01, h02, h03, h04, h05, h06, h07]
    | none =>
    cases h08 : lookupKV m "$undefined" with
    | some v => simp [h01, h02, h03, h04, h05, h06, h07, h08]
    | none =>
    cases h09 : lookupKV m "$maxKey" with
    | some v => simp [h01, h02, h03, h04, h05, h06, h07, h08, h09]
    | none =>
    cases h10 : lookupKV m "$minKey" with
    | some v => simp [h01, h02, h03, h04, h05, h06, h07, h08, h09, h10]
    | none => simp [h01, h02, h03, h04, h05, h06, h07, h08, h09, h10]
  · by_cases h2 : m.length = 2
    · simp only [h1, h2, if_false, if_true]
      cases h11 : lookupKV m "$code" with
      | some v => simp [h11]
      | none =>
      cases h12 : lookupKV m "$regex" with
      | some v => simp [h11, h12]
      | none =>
      cases h13 : lookupKV m "$binary" with
      | some v => simp [h11, h12, h13]
      | none => simp [h11, h12, h13]
    · simp [h1, h2]

theorem classifySpecial_ext {m₁ m₂ : List (String × Value)}
    (hlen : m₁.length = m₂.length)
    (hiso : ∀ k, (lookupKV m₁ k).isSome = (lookupKV m₂ k).isSome) :
    classifySpecial m₁ = classifySpecial m₂ := by
  rw [classifySpecial, classifySpecial, hlen]
  simp only [hiso]

/-- C10: classification of a `bson.D` document is computed on the
key-deduplicated map `bson.D.Map()`: the map's keys are distinct and number
as many as the document's distinct keys, each key maps to the value of its
last occurrence in document order, a two-element document with both elements
keyed `$oid` is handled as the single-field `$oid` form using the second
value, whether a special form is recognized is decided by the map alone
(`classifySpecial`), and permuting the element list never changes which
special form, if any, is recognized. -/
theorem duplicate_keys_classification :
    (∀ fd : String → Except GoErr (Int × Int), ∀ d : List (String × Value),
      ParseSpecialKeys fd (.vD d) =
        (match matchSpecial fd (dMap d) with
         | some r => r
         | none => (GetExtendedBsonD fd d).map .vD)) ∧
    (∀ d : List (String × Value),
      ((dMap d).map Prod.fst).Nodup ∧ (dMap d).length = (d.map Prod.fst).toFinset.card) ∧
    (∀ d : List (String × Value), ∀ k : String,
      lookupKV (dMap d) k = lookupKV d.reverse k) ∧
    (∀ fd : String → Except GoErr (Int × Int), ∀ a b : Value,
      ParseSpecialKeys fd (.vD [("$oid", a), ("$oid", b)]) = handleOid b) ∧
    (∀ fd : String → Except GoErr (Int × Int), ∀ m : List (String × Value),
      (matchSpecial fd m = none ↔ classifySpecial m = none)) ∧
    (∀ d₁ d₂ : List (String × Value), d₁.Perm d₂ →
      classifySpecial (dMap d₁) = classifySpecial (dMap d₂)) := by
  refine ⟨psk_vD_eq, ?_, lookupKV_dMap_last, ?_, matchSpecial_none_iff, ?_⟩
  · intro d
    exact ⟨nodup_keys_dMap d, length_dMap d⟩
  · intro fd a b
    rw [ParseSpecialKeys]
    simp [dMap, insertKV, matchSpecial, lookupKV]
  · intro d₁ d₂ hp
    have hkeys : (d₁.map Prod.fst).Perm (d₂.map Prod.fst) := hp.map Prod.fst
    apply classifySpecial_ext
    · rw [length_dMap, length_dMap]
      congr 1
      apply Finset.ext
      intro x
      simp only [List.mem_toFinset]
      exact hkeys.mem_iff
    · intro k
      have h1 := lookupKV_isSome_iff (dMap d₁) k
      have h2 := lookupKV_isSome_iff (dMap d₂) k
      rw [mem_keys_dMap] at h1
      rw [mem_keys_dMap] at h2
      have := h1.trans (Iff.trans (hkeys.mem_iff) h2.symm)
      exact Bool.eq_iff_iff.mpr this

/-- Witness for C10: with two `$oid` elements the last value wins; the
second, valid object id is decoded. -/
theorem duplicate_keys_classification_witness :
    ParseSpecialKeys (fun _ => .error "e")
        (.vD [("$oid", .vStr "zz"), ("$oid", .vStr "0123456789abcdef01234567")]) =
      .ok (.vObjectID [1, 35, 69, 103, 137, 171, 205, 239, 1, 35, 69, 103]) := by
  rw [duplicate_keys_classification.2.2.2.1 (fun _ => .error "e")
    (.vStr "zz") (.vStr "0123456789abcdef01234567")]
  rfl

/-- C3: a document with exactly one key is checked against the single-field
special forms in the source's priority order — `$date`, `$code`, `$oid`,
`$numberLong`, `$numberInt`, `$timestamp`, `$numberDecimal`, `$undefined`,
`$maxKey`, `$minKey` — each dispatching to its handler; a single key matching
none of them makes the document ordinary: it is recursed into via
`GetExtendedBsonD` rather than rejected, and in particular an ordinary
single-field document of scalars decodes to itself. -/
theorem single_key_dispatch :
    (∀ fd : String → Except GoErr (Int × Int), ∀ (k : String) (v : Value),
      k ∉ (["$date", "$code", "$oid", "$numberLong", "$numberInt", "$timestamp",
            "$numberDecimal", "$undefined", "$maxKey", "$minKey"] : List String) →
      ParseSpecialKeys fd (.vD [(k, v)]) = (GetExtendedBsonD fd [(k, v)]).map .vD) ∧
    (∀ fd : String → Except GoErr (Int × Int), ∀ (k : String) (s : String),
      k ∉ (["$date", "$code", "$oid", "$numberLong", "$numberInt", "$timestamp",
            "$numberDecimal", "$undefined", "$maxKey", "$minKey"] : List String) →
      ParseSpecialKeys fd (.vD [(k, .vStr s)]) = .ok (.vD [(k, .vStr s)])) ∧
    (∀ fd : String → Except GoErr (Int × Int), ∀ v : Value,
      ParseSpecialKeys fd (.vD [("$date", v)]) = handleDate fd v ∧
      ParseSpecialKeys fd (.vD [("$code", v)]) = handleCode v ∧
      ParseSpecialKeys fd (.vD [("$oid", v)]) = handleOid v ∧
      ParseSpecialKeys fd (.vD [("$numberLong", v)]) = handleNumberLong v ∧
      ParseSpecialKeys fd (.vD [("$numberInt", v)]) = handleNumberInt v ∧
      ParseSpecialKeys fd (.vD [("$timestamp", v)]) = handleTimestamp v ∧
      ParseSpecialKeys fd (.vD [("$numberDecimal", v)]) = handleNumberDecimal v ∧
      ParseSpecialKeys fd (.vD [("$undefined", v)]) = .ok .vUndefined ∧
      ParseSpecialKeys fd (.vD [("$maxKey", v)]) = .ok .vMaxKey ∧
      ParseSpecialKeys fd (.vD [("$minKey", v)]) = .ok .vMinKey) := by
  have hfall : ∀ fd (k : String) (v : Value),
      k ∉ (["$date", "$code", "$oid", "$numberLong", "$numberInt", "$timestamp",
            "$numberDecimal", "$undefined", "$maxKey", "$minKey"] : List String) →
      ParseSpecialKeys fd (.vD [(k, v)]) = (GetExtendedBsonD fd [(k, v)]).map .vD := by
    intro fd k v h
    simp only [List.mem_cons, List.mem_singleton] at h
    push_neg at h
    obtain ⟨h1, h2, h3, h4, h5, h6, h7, h8, h9, h10⟩ := h
    rw [ParseSpecialKeys]
    have hm : dMap [(k, v)] = [(k, v)] := by simp [dMap, insertKV]
    rw [hm, matchSpecial]
    simp [lookupKV, h1, h2, h3, h4, h5, h6, h7, h8, h9, h10]
  refine ⟨hfall, ?_, ?_⟩
  · intro fd k s h
    rw [hfall fd k (.vStr s) h]
    simp [GetExtendedBsonD, ConvertLegacyExtJSONValueToBSON, Except.map]
  · intro fd v
    exact ⟨psk_date fd v, psk_code fd v, psk_oid fd v, psk_numberLong fd v,
      psk_numberInt fd v, psk_timestamp fd v, psk_numberDecimal fd v,
      psk_undefined fd v, psk_maxKey fd v, psk_minKey fd v⟩

/-- Witness for C3: the unrecognized single key "foo" is recursed into as an
ordinary document, not rejected. -/
theorem single_key_dispatch_witness :
    ParseSpecialKeys (fun _ => .error "e") (.vD [("foo", .vStr "y")]) =
      .ok (.vD [("foo", .vStr "y")]) :=
  single_key_dispatch.2.1 (fun _ => .error "e") "foo" "y" (by decide)

theorem GEB_nil (fd : String → Except GoErr (Int × Int)) :
    GetExtendedBsonD fd [] = .ok [] := by
  rw [GetExtendedBsonD]

theorem GEB_cons (fd : String → Except GoErr (Int × Int)) (k : String) (v : Value)
    (rest : List (String × Value)) :
    GetExtendedBsonD fd ((k, v) :: rest) =
      match ParseLegacyExtJSONValue fd v with
      | .error e => .error e
      | .ok bv => (GetExtendedBsonD fd rest).map (fun tail => (k, bv) :: tail) := by
  cases v <;> (rw [GetExtendedBsonD, ParseLegacyExtJSONValue] <;> (intro _ h; exact Value.noConfusion h))

theorem CLD_nil (fd : String → Except GoErr (Int × Int)) :
    ConvertLegacyExtJSONDocumentToBSON fd [] = .ok [] := by
  rw [ConvertLegacyExtJSONDocumentToBSON]

theorem CLD_cons (fd : String → Except GoErr (Int × Int)) (k : String) (v : Value)
    (rest : List (String × Value)) :
    ConvertLegacyExtJSONDocumentToBSON fd ((k, v) :: rest) =
      match ParseLegacyExtJSONValue fd v with
      | .error e => .error e
      | .ok bv =>
        (ConvertLegacyExtJSONDocumentToBSON fd rest).map (fun tail => (k, bv) :: tail) := by
  cases v <;> (rw [ConvertLegacyExtJSONDocumentToBSON, ParseLegacyExtJSONValue] <;> (intro _ h; exact Value.noConfusion h))

theorem CA_nil (fd : String → Except GoErr (Int × Int)) : convertArray fd [] = .ok [] := by
  rw [convertArray]

theorem CA_cons (fd : String → Except GoErr (Int × Int)) (x : Value) (rest : List Value) :
    convertArray fd (x :: rest) =
      match ParseLegacyExtJSONValue fd x with
      | .error e => .error e
      | .ok y => (convertArray fd rest).map (fun tail => y :: tail) := by
  cases x <;> (rw [convertArray, ParseLegacyExtJSONValue] <;> (intro _ h; exact Value.noConfusion h))

theorem GEB_keys (fd : String → Except GoErr (Int × Int)) :
    ∀ (d d' : List (String × Value)), GetExtendedBsonD fd d = .ok d' →
      d'.map Prod.fst = d.map Prod.fst := by
  intro d
  induction d with
  | nil =>
    intro d' h
    rw [GEB_nil] at h
    cases h
    rfl
  | cons p rest ih =>
    intro d' h
    obtain ⟨k, v⟩ := p
    rw [GEB_cons] at h
    rcases hv : ParseLegacyExtJSONValue fd v with e | bv
    · rw [hv] at h
      cases h
    · rw [hv] at h
      rcases hrest : GetExtendedBsonD fd rest with e2 | tail
      · rw [hrest] at h
        cases h
      · rw [hrest] at h
        simp [Except.map] at h
        rw [← h]
        simp [ih tail hrest]

theorem CLD_keys (fd : String → Except GoErr (Int × Int)) :
    ∀ (m m' : List (String × Value)), ConvertLegacyExtJSONDocumentToBSON fd m = .ok m' →
      m'.map Prod.fst = m.map Prod.fst := by
  intro m
  induction m with
  | nil =>
    intro m' h
    rw [CLD_nil] at h
    cases h
    rfl
  | cons p rest ih =>
    intro m' h
    obtain ⟨k, v⟩ := p
    rw [CLD_cons] at h
    rcases hv : ParseLegacyExtJSONValue fd v with e | bv
    · rw [hv] at h
      cases h
    · rw [hv] at h
      rcases hrest : ConvertLegacyExtJSONDocumentToBSON fd rest with e2 | tail
      · rw [hrest] at h
        cases h
      · rw [hrest] at h
        simp [Except.map] at h
        rw [← h]
        simp [ih tail hrest]

theorem plejv_nondoc (fd : String → Except GoErr (Int × Int)) (w : Value)
    (h1 : ∀ d, w ≠ .vD d) (h2 : ∀ m, w ≠ .vMap m) (h3 : ∀ xs, w ≠ .vArr xs) :
    ParseLegacyExtJSONValue fd w = .ok w := by
  cases w <;> first
    | exact absurd rfl (h1 _)
    | exact absurd rfl (h2 _)
    | exact absurd rfl (h3 _)
    | simp [ParseLegacyExtJSONValue, ConvertLegacyExtJSONValueToBSON]

theorem timeUnix_shape (a b : Int) : ∃ s2 n2, timeUnix a b = .vTime s2 n2 := by
  obtain ⟨s2, n2, h, _⟩ := timeUnix_instant a b
  exact ⟨s2, n2, h⟩

theorem handleDate_stable {fd : String → Except GoErr (Int × Int)} {v w : Value}
    (h : handleDate fd v = .ok w) : ParseLegacyExtJSONValue fd w = .ok w := by
  have htime : ∀ a b : Int, ParseLegacyExtJSONValue fd (timeUnix a b) = .ok (timeUnix a b) := by
    intro a b
    obtain ⟨s2, n2, ht⟩ := timeUnix_shape a b
    rw [ht]
    exact plejv_nondoc fd _ (by intro _ hh; cases hh) (by intro _ hh; cases hh)
      (by intro _ hh; cases hh)
  cases v with
  | vStr s =>
    rw [handleDate] at h
    rcases hfd : fd s with e | t
    · simp [hfd, Except.map] at h
    · simp only [hfd, Except.map] at h
      rw [Except.ok.injEq] at h
      subst h
      exact plejv_nondoc fd (Value.vTime t.1 t.2) (fun _ hh => Value.noConfusion hh)
        (fun _ hh => Value.noConfusion hh) (fun _ hh => Value.noConfusion hh)
  | vD d =>
    rw [handleDate] at h
    rcases hl : lookupKV (dMap d) "$numberLong" with _ | inner
    · simp [hl] at h
    · simp only [hl] at h
      rcases hp : parseNumberLongField inner with e | n
      · simp [hp, Except.map] at h
      · simp only [hp, Except.map] at h
        rw [Except.ok.injEq] at h
        subst h
        exact htime _ _
  | vMap m =>
    rw [handleDate] at h
    rcases hl : lookupKV m "$numberLong" with _ | inner
    · simp [hl] at h
    · simp only [hl] at h
      rcases hp : parseNumberLongField inner with e | n
      · simp [hp, Except.map] at h
      · simp only [hp, Except.map] at h
        rw [Except.ok.injEq] at h
        subst h
        exact htime _ _
  | vJsonNumber s =>
    rw [handleDate] at h
    rcases hp : goParseInt s.data 10 64 with e | n
    · simp [hp, Except.map] at h
    · simp only [hp, Except.map] at h
      rw [Except.ok.injEq] at h
      subst h
      exact htime _ _
  | vFloat64 n =>
    simp only [handleDate, Except.ok.injEq] at h
    subst h
    exact htime _ _
  | vInt32 n =>
    simp only [handleDate, Except.ok.injEq] at h
    subst h
    exact htime _ _
  | vInt64 n =>
    simp only [handleDate, Except.ok.injEq] at h
    subst h
    exact htime _ _
  | vISODate s =>
    simp only [handleDate, Except.ok.injEq] at h
    subst h
    exact plejv_nondoc fd (Value.vISODate s) (fun _ hh => Value.noConfusion hh)
      (fun _ hh => Value.noConfusion hh) (fun _ hh => Value.noConfusion hh)
  | vNull => simp [handleDate] at h
  | vBool b => simp [handleDate] at h
  | vArr xs => simp [handleDate] at h
  | vTime a b => simp [handleDate] at h
  | vJavaScript s => simp [handleDate] at h
  | vObjectID bs => simp [handleDate] at h
  | vTimestamp t i => simp [handleDate] at h
  | vDecimal128 s => simp [handleDate] at h
  | vUndefined => simp [handleDate] at h
  | vMaxKey => simp [handleDate] at h
  | vMinKey => simp [handleDate] at h
  | vCodeWithScope c s => simp [handleDate] at h
  | vRegex p o => simp [handleDate] at h
  | vBinary st bs => simp [handleDate] at h

theorem handleCode_stable {fd : String → Except GoErr (Int × Int)} {v w : Value}
    (h : handleCode v = .ok w) : ParseLegacyExtJSONValue fd w = .ok w := by
  cases v <;> simp only [handleCode] at h
  all_goals simp at h
  subst h
  exact plejv_nondoc fd _ (fun _ hh => Value.noConfusion hh)
    (fun _ hh => Value.noConfusion hh) (fun _ hh => Value.noConfusion hh)

theorem handleOid_stable {fd : String → Except GoErr (Int × Int)} {v w : Value}
    (h : handleOid v = .ok w) : ParseLegacyExtJSONValue fd w = .ok w := by
  cases v with
  | vStr s =>
    rw [handleOid, objectIDFromHex] at h
    split_ifs at h
    rcases hx : goHexDecode s.data with e | bs
    · simp [hx, Except.map] at h
    · simp only [hx, Except.map, Except.ok.injEq] at h
      subst h
      exact plejv_nondoc fd _ (fun _ hh => Value.noConfusion hh)
        (fun _ hh => Value.noConfusion hh) (fun _ hh => Value.noConfusion hh)
  | vNull => simp [handleOid] at h
  | vBool b => simp [handleOid] at h
  | vD d => simp [handleOid] at h
  | vMap m => simp [handleOid] at h
  | vArr xs => simp [handleOid] at h
  | vJsonNumber s => simp [handleOid] at h
  | vFloat64 n => simp [handleOid] at h
  | vInt32 n => simp [handleOid] at h
  | vInt64 n => simp [handleOid] at h
  | vISODate s => simp [handleOid] at h
  | vTime a b => simp [handleOid] at h
  | vJavaScript s => simp [handleOid] at h
  | vObjectID bs => simp [handleOid] at h
  | vTimestamp t i => simp [handleOid] at h
  | vDecimal128 s => simp [handleOid] at h
  | vUndefined => simp [handleOid] at h
  | vMaxKey => simp [handleOid] at h
  | vMinKey => simp [handleOid] at h
  | vCodeWithScope c sc => simp [handleOid] at h
  | vRegex p o => simp [handleOid] at h
  | vBinary st bs => simp [handleOid] at h

theorem handleNumberLong_stable {fd : String → Except GoErr (Int × Int)} {v w : Value}
    (h : handleNumberLong v = .ok w) : ParseLegacyExtJSONValue fd w = .ok w := by
  rw [handleNumberLong] at h
  rcases hp : parseNumberLongField v with e | n
  · simp [hp, Except.map] at h
  · simp only [hp, Except.map, Except.ok.injEq] at h
    subst h
    exact plejv_nondoc fd _ (fun _ hh => Value.noConfusion hh)
      (fun _ hh => Value.noConfusion hh) (fun _ hh => Value.noConfusion hh)

theorem handleNumberInt_stable {fd : String → Except GoErr (Int × Int)} {v w : Value}
    (h : handleNumberInt v = .ok w) : ParseLegacyExtJSONValue fd w = .ok w := by
  cases v <;> rw [handleNumberInt] at h <;> try cases h
  case vStr s =>
    rcases hp : goParseInt s.data 0 32 with e | n
    · simp [hp, Except.map] at h
    · simp only [hp, Except.map, Except.ok.injEq] at h
      subst h
      exact plejv_nondoc fd _ (fun _ hh => Value.noConfusion hh)
        (fun _ hh => Value.noConfusion hh) (fun _ hh => Value.noConfusion hh)

theorem handleTimestamp_stable {fd : String → Except GoErr (Int × Int)} {v w : Value}
    (h : handleTimestamp v = .ok w) : ParseLegacyExtJSONValue fd w = .ok w := by
  cases v <;> simp only [handleTimestamp] at h
  all_goals try simp at h
  case vD d =>
    rcases ht : lookupKV (dMap d) "t" with _ | seconds
    · simp [ht] at h
    · simp only [ht] at h
      rcases hts : toUInt32 seconds with e2 | t
      · simp [hts] at h
      · simp only [hts] at h
        rcases hi : lookupKV (dMap d) "i" with _ | inc
        · simp [hi] at h
        · simp only [hi] at h
          rcases his : toUInt32 inc with e3 | i
          · simp [his] at h
          · simp only [his, Except.ok.injEq] at h
            subst h
            exact plejv_nondoc fd _ (fun _ hh => Value.noConfusion hh)
              (fun _ hh => Value.noConfusion hh) (fun _ hh => Value.noConfusion hh)
  case vMap m =>
    rcases ht : lookupKV m "t" with _ | seconds
    · simp [ht] at h
    · simp only [ht] at h
      rcases hts : toUInt32 seconds with e2 | t
      · simp [hts] at h
      · simp only [hts] at h
        rcases hi : lookupKV m "i" with _ | inc
        · simp [hi] at h
        · simp only [hi] at h
          rcases his : toUInt32 inc with e3 | i
          · simp [his] at h
          · simp only [his, Except.ok.injEq] at h
            subst h
            exact plejv_nondoc fd _ (fun _ hh => Value.noConfusion hh)
              (fun _ hh => Value.noConfusion hh) (fun _ hh => Value.noConfusion hh)

theorem handleNumberDecimal_stable {fd : String → Except GoErr (Int × Int)} {v w : Value}
    (h : handleNumberDecimal v = .ok w) : ParseLegacyExtJSONValue fd w = .ok w := by
  cases v <;> rw [handleNumberDecimal] at h <;> try cases h
  case vStr s =>
    rw [parseDecimal128] at h
    split_ifs at h
    rw [Except.ok.injEq] at h
    subst h
    exact plejv_nondoc fd _ (fun _ hh => Value.noConfusion hh)
      (fun _ hh => Value.noConfusion hh) (fun _ hh => Value.noConfusion hh)

theorem handleRegex_stable {fd : String → Except GoErr (Int × Int)}
    {doc : List (String × Value)} {v w : Value}
    (h : handleRegex doc v = .ok w) : ParseLegacyExtJSONValue fd w = .ok w := by
  cases v <;> rw [handleRegex] at h <;> try cases h
  case vStr p =>
    rcases ho : lookupKV doc "$options" with _ | ov
    · simp [ho] at h
    · simp only [ho] at h
      cases ov <;> try cases h
      case vStr o =>
        rcases hv : validateRegexOptions o.data with e | u
        · simp [hv] at h
        · simp only [hv, Except.ok.injEq] at h
          subst h
          exact plejv_nondoc fd _ (fun _ hh => Value.noConfusion hh)
            (fun _ hh => Value.noConfusion hh) (fun _ hh => Value.noConfusion hh)

theorem handleBinary_stable {fd : String → Except GoErr (Int × Int)}
    {doc : List (String × Value)} {v w : Value}
    (h : handleBinary doc v = .ok w) : ParseLegacyExtJSONValue fd w = .ok w := by
  cases v <;> rw [handleBinary] at h <;> try cases h
  case vStr b =>
    rcases hb : goBase64Decode b with e | bytes
    · simp [hb] at h
    · simp only [hb] at h
      rcases ht : lookupKV doc "$type" with _ | tv
      · simp [ht] at h
      · simp only [ht] at h
        cases tv <;> try cases h
        case vStr typ =>
          rcases hx : goHexDecode typ.data with e2 | kind
          · simp [hx] at h
          · simp only [hx] at h
            split_ifs at h
            rw [Except.ok.injEq] at h
            subst h
            exact plejv_nondoc fd _ (fun _ hh => Value.noConfusion hh)
              (fun _ hh => Value.noConfusion hh) (fun _ hh => Value.noConfusion hh)

theorem plejv_vD (fd : String → Except GoErr (Int × Int)) (d : List (String × Value)) :
    ParseLegacyExtJSONValue fd (.vD d) = ParseSpecialKeys fd (.vD d) := rfl

theorem plejv_vMap (fd : String → Except GoErr (Int × Int)) (m : List (String × Value)) :
    ParseLegacyExtJSONValue fd (.vMap m) = ParseSpecialKeys fd (.vMap m) := rfl

theorem plejv_vArr (fd : String → Except GoErr (Int × Int)) (xs : List Value) :
    ParseLegacyExtJSONValue fd (.vArr xs) = (convertArray fd xs).map .vArr := by
  show ConvertLegacyExtJSONValueToBSON fd (.vArr xs) = _
  rw [ConvertLegacyExtJSONValueToBSON]

theorem handleCodeScope_stable {fd : String → Except GoErr (Int × Int)}
    {doc : List (String × Value)} {v w : Value}
    (h : handleCodeScope fd doc v = .ok w) : ParseLegacyExtJSONValue fd w = .ok w := by
  cases v <;> (rw [handleCodeScope] at h <;> try (intro _ hh; exact Value.noConfusion hh))
  case vStr code =>
    split at h
    · rename_i m heq
      rcases hp : ParseSpecialKeys fd (.vMap m) with e | x
      · rw [hp] at h; cases h
      · rw [hp] at h
        simp only [Except.map, Except.ok.injEq] at h
        subst h
        exact plejv_nondoc fd _ (fun _ hh => Value.noConfusion hh)
          (fun _ hh => Value.noConfusion hh) (fun _ hh => Value.noConfusion hh)
    · rename_i d heq
      rcases hp : ParseSpecialKeys fd (.vD d) with e | x
      · rw [hp] at h; cases h
      · rw [hp] at h
        simp only [Except.map, Except.ok.injEq] at h
        subst h
        exact plejv_nondoc fd _ (fun _ hh => Value.noConfusion hh)
          (fun _ hh => Value.noConfusion hh) (fun _ hh => Value.noConfusion hh)
    · exact Except.noConfusion h
    · exact Except.noConfusion h
  all_goals exact Except.noConfusion h

theorem matchSpecial_stable {fd : String → Except GoErr (Int × Int)}
    {doc : List (String × Value)} {w : Value}
    (hm : matchSpecial fd doc = some (.ok w)) :
    ParseLegacyExtJSONValue fd w = .ok w := by
  rw [matchSpecial] at hm
  by_cases h1 : doc.length = 1
  · rw [if_pos h1] at hm
    rcases h01 : lookupKV doc "$date" with _ | jv01
    · rw [h01] at hm
      rcases h02 : lookupKV doc "$code" with _ | jv02
      · rw [h02] at hm
        rcases h03 : lookupKV doc "$oid" with _ | jv03
        · rw [h03] at hm
          rcases h04 : lookupKV doc "$numberLong" with _ | jv04
          · rw [h04] at hm
            rcases h05 : lookupKV doc "$numberInt" with _ | jv05
            · rw [h05] at hm
              rcases h06 : lookupKV doc "$timestamp" with _ | jv06
              · rw [h06] at hm
                rcases h07 : lookupKV doc "$numberDecimal" with _ | jv07
                · rw [h07] at hm
                  rcases h08 : lookupKV doc "$undefined" with _ | jv08
                  · rw [h08] at hm
                    rcases h09 : lookupKV doc "$maxKey" with _ | jv09
                    · rw [h09] at hm
                      rcases h10 : lookupKV doc "$minKey" with _ | jv10
                      · rw [h10] at hm; cases hm
                      · rw [h10] at hm
                        simp only [Option.some.injEq, Except.ok.injEq] at hm
                        subst hm
                        exact plejv_nondoc fd _ (fun _ hh => Value.noConfusion hh)
                          (fun _ hh => Value.noConfusion hh) (fun _ hh => Value.noConfusion hh)
                    · rw [h09] at hm
                      simp only [Option.some.injEq, Except.ok.injEq] at hm
                      subst hm
                      exact plejv_nondoc fd _ (fun _ hh => Value.noConfusion hh)
                        (fun _ hh => Value.noConfusion hh) (fun _ hh => Value.noConfusion hh)
                  · rw [h08] at hm
                    simp only [Option.some.injEq, Except.ok.injEq] at hm
                    subst hm
                    exact plejv_nondoc fd _ (fun _ hh => Value.noConfusion hh)
                      (fun _ hh => Value.noConfusion hh) (fun _ hh => Value.noConfusion hh)
                · rw [h07] at hm
                  simp only [Option.some.injEq] at hm
                  exact handleNumberDecimal_stable hm
              · rw [h06] at hm
                simp only [Option.some.injEq] at hm
                exact handleTimestamp_stable hm
            · rw [h05] at hm
              simp only [Option.some.injEq] at hm
              exact handleNumberInt_stable hm
          · rw [h04] at hm
            simp only [Option.some.injEq] at hm
            exact handleNumberLong_stable hm
        · rw [h03] at hm
          simp only [Option.some.injEq] at hm
          exact handleOid_stable hm
      · rw [h02] at hm
        simp only [Option.some.injEq] at hm
        exact handleCode_stable hm
    · rw [h01] at hm
      simp only [Option.some.injEq] at hm
      exact handleDate_stable hm
  · rw [if_neg h1] at hm
    by_cases h2 : doc.length = 2
    · rw [if_pos h2] at hm
      rcases h11 : lookupKV doc "$code" with _ | jv11
      · rw [h11] at hm
        rcases h12 : lookupKV doc "$regex" with _ | jv12
        · rw [h12] at hm
          rcases h13 : lookupKV doc "$binary" with _ | jv13
          · rw [h13] at hm; cases hm
          · rw [h13] at hm
            simp only [Option.some.injEq] at hm
            exact handleBinary_stable hm
        · rw [h12] at hm
          simp only [Option.some.injEq] at hm
          exact handleRegex_stable hm
      · rw [h11] at hm
        simp only [Option.some.injEq] at hm
        exact handleCodeScope_stable hm
    · rw [if_neg h2] at hm; cases hm

theorem value_sizeOf_pos (v : Value) : 0 < sizeOf v := by
  cases v <;> simp_arith

theorem listKV_sizeOf_pos (l : List (String × Value)) : 0 < sizeOf l := by
  cases l <;> simp_arith

theorem listVal_sizeOf_pos (l : List Value) : 0 < sizeOf l := by
  cases l <;> simp_arith

theorem decode_stable_all (fd : String → Except GoErr (Int × Int)) :
    ∀ N : Nat,
      (∀ v w : Value, sizeOf v ≤ N →
        ParseLegacyExtJSONValue fd v = .ok w → ParseLegacyExtJSONValue fd w = .ok w) ∧
      (∀ d dr : List (String × Value), sizeOf d ≤ N →
        GetExtendedBsonD fd d = .ok dr → GetExtendedBsonD fd dr = .ok dr) ∧
      (∀ m mr : List (String × Value), sizeOf m ≤ N →
        ConvertLegacyExtJSONDocumentToBSON fd m = .ok mr →
        ConvertLegacyExtJSONDocumentToBSON fd mr = .ok mr) ∧
      (∀ xs ys : List Value, sizeOf xs ≤ N →
        convertArray fd xs = .ok ys → convertArray fd ys = .ok ys) := by
  intro N
  induction N with
  | zero =>
    refine ⟨?_, ?_, ?_, ?_⟩
    · intro v w hsz
      exact absurd hsz (by have := value_sizeOf_pos v; omega)
    · intro d dr hsz
      exact absurd hsz (by have := listKV_sizeOf_pos d; omega)
    · intro m mr hsz
      exact absurd hsz (by have := listKV_sizeOf_pos m; omega)
    · intro xs ys hsz
      exact absurd hsz (by have := listVal_sizeOf_pos xs; omega)
  | succ N ih =>
    obtain ⟨ihV, ihG, ihC, ihA⟩ := ih
    refine ⟨?_, ?_, ?_, ?_⟩
    · intro v w hsz h
      cases v
      case vD d =>
        rw [plejv_vD, psk_vD_eq] at h
        cases hms : matchSpecial fd (dMap d) with
        | some r =>
          rw [hms] at h
          change r = Except.ok w at h
          exact matchSpecial_stable (by rw [hms, h])
        | none =>
          rw [hms] at h
          rcases hg : GetExtendedBsonD fd d with e | d1
          · rw [hg] at h; cases h
          · rw [hg] at h
            simp only [Except.map, Except.ok.injEq] at h
            subst h
            rw [plejv_vD, psk_vD_eq]
            have hk : d1.map Prod.fst = d.map Prod.fst := GEB_keys fd d d1 hg
            have hnone2 : matchSpecial fd (dMap d1) = none := by
              rw [matchSpecial_none_iff]
              have hcls : classifySpecial (dMap d1) = classifySpecial (dMap d) := by
                apply classifySpecial_ext
                · rw [length_dMap, length_dMap, hk]
                · intro k
                  rw [Bool.eq_iff_iff, lookupKV_isSome_iff, lookupKV_isSome_iff,
                    mem_keys_dMap, mem_keys_dMap, hk]
              rw [hcls, ← matchSpecial_none_iff]
              exact hms
            rw [hnone2]
            have hg2 : GetExtendedBsonD fd d1 = .ok d1 :=
              ihG d d1 (by simp at hsz; omega) hg
            simp [hg2, Except.map]
      case vMap m =>
        rw [plejv_vMap, psk_vMap_eq] at h
        cases hms : matchSpecial fd m with
        | some r =>
          rw [hms] at h
          change r = Except.ok w at h
          exact matchSpecial_stable (by rw [hms, h])
        | none =>
          rw [hms] at h
          rw [ConvertLegacyExtJSONValueToBSON] at h
          rcases hc : ConvertLegacyExtJSONDocumentToBSON fd m with e | m1
          · rw [hc] at h; cases h
          · rw [hc] at h
            simp only [Except.map, Except.ok.injEq] at h
            subst h
            rw [plejv_vMap, psk_vMap_eq]
            have hk : m1.map Prod.fst = m.map Prod.fst := CLD_keys fd m m1 hc
            have hnone2 : matchSpecial fd m1 = none := by
              rw [matchSpecial_none_iff]
              have hcls : classifySpecial m1 = classifySpecial m := by
                apply classifySpecial_ext
                · have := congrArg List.length hk
                  simpa using this
                · intro k
                  rw [Bool.eq_iff_iff, lookupKV_isSome_iff, lookupKV_isSome_iff, hk]
              rw [hcls, ← matchSpecial_none_iff]
              exact hms
            rw [hnone2]
            rw [ConvertLegacyExtJSONValueToBSON]
            have hc2 : ConvertLegacyExtJSONDocumentToBSON fd m1 = .ok m1 :=
              ihC m m1 (by simp at hsz; omega) hc
            simp [hc2, Except.map]
      case vArr xs =>
        rw [plejv_vArr] at h
        rcases ha : convertArray fd xs with e | ys
        · rw [ha] at h; cases h
        · rw [ha] at h
          simp only [Except.map, Except.ok.injEq] at h
          subst h
          rw [plejv_vArr]
          have hys : convertArray fd ys = .ok ys :=
            ihA xs ys (by simp at hsz; omega) ha
          simp [hys, Except.map]
      all_goals
        rw [plejv_nondoc fd _ (fun _ hh => Value.noConfusion hh)
          (fun _ hh => Value.noConfusion hh) (fun _ hh => Value.noConfusion hh)] at h
        rw [Except.ok.injEq] at h
        subst h
        exact plejv_nondoc fd _ (fun _ hh => Value.noConfusion hh)
          (fun _ hh => Value.noConfusion hh) (fun _ hh => Value.noConfusion hh)
    · intro d dr hsz h
      cases d with
      | nil =>
        rw [GEB_nil] at h
        cases h
        exact GEB_nil fd
      | cons p rest =>
        obtain ⟨k, v⟩ := p
        rw [GEB_cons] at h
        rcases hv : ParseLegacyExtJSONValue fd v with e | bv
        · rw [hv] at h; cases h
        · rw [hv] at h
          rcases hrest : GetExtendedBsonD fd rest with e2 | tail
          · rw [hrest] at h; cases h
          · rw [hrest] at h
            simp only [Except.map, Except.ok.injEq] at h
            subst h
            rw [GEB_cons]
            have hbv : ParseLegacyExtJSONValue fd bv = .ok bv :=
              ihV v bv (by simp at hsz; omega) hv
            have htail : GetExtendedBsonD fd tail = .ok tail :=
              ihG rest tail (by simp at hsz; omega) hrest
            rw [hbv, htail]
            simp [Except.map]
    · intro m mr hsz h
      cases m with
      | nil =>
        rw [CLD_nil] at h
        cases h
        exact CLD_nil fd
      | cons p rest =>
        obtain ⟨k, v⟩ := p
        rw [CLD_cons] at h
        rcases hv : ParseLegacyExtJSONValue fd v with e | bv
        · rw [hv] at h; cases h
        · rw [hv] at h
          rcases hrest : ConvertLegacyExtJSONDocumentToBSON fd rest with e2 | tail
          · rw [hrest] at h; cases h
          · rw [hrest] at h
            simp only [Except.map, Except.ok.injEq] at h
            subst h
            rw [CLD_cons]
            have hbv : ParseLegacyExtJSONValue fd bv = .ok bv :=
              ihV v bv (by simp at hsz; omega) hv
            have htail : ConvertLegacyExtJSONDocumentToBSON fd tail = .ok tail :=
              ihC rest tail (by simp at hsz; omega) hrest
            rw [hbv, htail]
            simp [Except.map]
    · intro xs ys hsz h
      cases xs with
      | nil =>
        rw [CA_nil] at h
        cases h
        exact CA_nil fd
      | cons x rest =>
        rw [CA_cons] at h
        rcases hx : ParseLegacyExtJSONValue fd x with e | y
        · rw [hx] at h; cases h
        · rw [hx] at h
          rcases hrest : convertArray fd rest with e2 | tail
          · rw [hrest] at h; cases h
          · rw [hrest] at h
            simp only [Except.map, Except.ok.injEq] at h
            subst h
            rw [CA_cons]
            have hy : ParseLegacyExtJSONValue fd y = .ok y :=
              ihV x y (by simp at hsz; omega) hx
            have htail : convertArray fd tail = .ok tail :=
              ihA rest tail (by simp at hsz; omega) hrest
            rw [hy, htail]
            simp [Except.map]

/-- C9: special-key decoding is idempotent on its own output.  Re-encoding a
decoded result is the identity on typed value trees (decoded wrapper values
such as typed dates, object ids, regexes, timestamps and binaries are distinct
constructors, not documents), so the round trip decode → re-encode → decode is
the second decode applied to the first's output: whenever
`ParseLegacyExtJSONValue` succeeds with `w`, decoding `w` again succeeds and
returns `w` itself — already-decoded wrapper values pass through the general
conversion untouched and are never special-cased a second time, and a
document that survived decoding still has the same keys, so it again misses
every special form and decodes field-by-field to itself. -/
theorem decode_idempotent :
    ∀ fd : String → Except GoErr (Int × Int), ∀ v w : Value,
      ParseLegacyExtJSONValue fd v = .ok w →
      ParseLegacyExtJSONValue fd w = .ok w := by
  intro fd v w h
  exact (decode_stable_all fd (sizeOf v)).1 v w le_rfl h

/-- Witness for C9: decoding `{"$numberLong": "12"}` yields the typed
`int64 12`, and decoding that output again returns it unchanged. -/
theorem decode_idempotent_witness :
    ParseLegacyExtJSONValue (fun _ => .error "e") (.vD [("$numberLong", .vStr "12")]) =
      .ok (.vInt64 12) ∧
    ParseLegacyExtJSONValue (fun _ => .error "e") (.vInt64 12) = .ok (.vInt64 12) := by
  have h : ParseLegacyExtJSONValue (fun _ => .error "e")
      (.vD [("$numberLong", .vStr "12")]) = .ok (.vInt64 12) := by
    rw [plejv_vD, psk_numberLong]
    rfl
  exact ⟨h, decode_idempotent _ _ _ h⟩
